import Mathlib

/-!
Verification of the seat-booking core of the Railway/Bus Seat Booking System
(`src/index.js`): the `SegmentTree` class (range-add updates and range-max
queries with lazy propagation) and the `SeatBookingSystem` class built on it.

The JS state is embedded shallowly: the `tree` and `lazy` arrays become total
functions `Nat → Int` (the JS arrays are only ever indexed inside `[0, 4n)`,
which is verified separately via `SegmentTree.touchedGo`), and every mutating
method becomes a function returning the updated structure.  The recursive
methods are translated with a structural fuel parameter; every top-level entry
point passes fuel `n + 1`, which strictly dominates the recursion depth (each
recursive call strictly shrinks `e - s`), so the fuel-0 branch is never taken
on any reachable call.
-/

set_option maxHeartbeats 4000000

/-- Single-cell write to an array modelled as a total function. -/
def writeFn (f : Nat → Int) (i : Nat) (x : Int) : Nat → Int :=
  fun j => if j = i then x else f j

/-- The `SegmentTree` class of `src/index.js`: segment count `n` plus the
`tree` and `lazy` arrays (modelled as total functions; the constructor
zero-fills them). -/
structure SegmentTree where
  n : Nat
  tree : Nat → Int
  lazy : Nat → Int

/-- `new SegmentTree(n)`: `tree` and `lazy` zero-initialized. -/
def SegmentTree.make (n : Nat) : SegmentTree :=
  ⟨n, fun _ => 0, fun _ => 0⟩

/-- `SegmentTree.pushDown(node)`: if `lazy[node] ≠ 0`, add it to both
children's `tree` and `lazy` entries and clear `lazy[node]`. -/
def SegmentTree.pushDown (t : SegmentTree) (node : Nat) : SegmentTree :=
  if t.lazy node ≠ 0 then
    { t with
      tree := writeFn (writeFn t.tree (2 * node + 1) (t.tree (2 * node + 1) + t.lazy node))
        (2 * node + 2) (t.tree (2 * node + 2) + t.lazy node),
      lazy := writeFn (writeFn (writeFn t.lazy (2 * node + 1)
          (t.lazy (2 * node + 1) + t.lazy node))
        (2 * node + 2) (t.lazy (2 * node + 2) + t.lazy node)) node 0 }
  else t

/-- The recombination step at the end of the split branch of `update`:
`tree[node] = max(tree[lc] + lazy[lc], tree[rc] + lazy[rc])`. -/
def SegmentTree.pullUp (t : SegmentTree) (node : Nat) : SegmentTree :=
  { t with tree := writeFn t.tree node (max
      (t.tree (2 * node + 1) + t.lazy (2 * node + 1))
      (t.tree (2 * node + 2) + t.lazy (2 * node + 2))) }

/-- `SegmentTree.update(l, r, val, node, start, end)` with explicit fuel.
Branches mirror the source: no overlap, complete overlap (add to own `tree`
and `lazy`), else push down, recurse into both children and recombine. -/
def SegmentTree.updateGo : Nat → SegmentTree → Nat → Nat → Int → Nat → Nat → Nat → SegmentTree
  | 0, t, _, _, _, _, _, _ => t
  | fuel + 1, t, l, r, val, node, s, e =>
    if r ≤ s ∨ e ≤ l then t
    else if l ≤ s ∧ e ≤ r then
      { t with tree := writeFn t.tree node (t.tree node + val),
               lazy := writeFn t.lazy node (t.lazy node + val) }
    else
      SegmentTree.pullUp
        (SegmentTree.updateGo fuel
          (SegmentTree.updateGo fuel (t.pushDown node) l r val (2 * node + 1) s
            ((s + e) / 2))
          l r val (2 * node + 2) ((s + e) / 2) e) node

/-- `SegmentTree.update(l, r, val)` called at the root with default args. -/
def SegmentTree.update (t : SegmentTree) (l r : Nat) (val : Int) : SegmentTree :=
  SegmentTree.updateGo (t.n + 1) t l r val 0 0 t.n

/-- `SegmentTree.query(l, r, node, start, end)` with explicit fuel.  Returns
the updated tree (queries mutate the arrays through `pushDown`) together with
the returned maximum. -/
def SegmentTree.queryGo : Nat → SegmentTree → Nat → Nat → Nat → Nat → Nat → SegmentTree × Int
  | 0, t, _, _, _, _, _ => (t, 0)
  | fuel + 1, t, l, r, node, s, e =>
    if r ≤ s ∨ e ≤ l then (t, 0)
    else if l ≤ s ∧ e ≤ r then (t, t.tree node)
    else
      ((SegmentTree.queryGo fuel
          (SegmentTree.queryGo fuel (t.pushDown node) l r (2 * node + 1) s
            ((s + e) / 2)).1 l r (2 * node + 2) ((s + e) / 2) e).1,
       max (SegmentTree.queryGo fuel (t.pushDown node) l r (2 * node + 1) s
            ((s + e) / 2)).2
           (SegmentTree.queryGo fuel
             (SegmentTree.queryGo fuel (t.pushDown node) l r (2 * node + 1) s
               ((s + e) / 2)).1 l r (2 * node + 2) ((s + e) / 2) e).2)

/-- `SegmentTree.query(l, r)` called at the root with default args. -/
def SegmentTree.query (t : SegmentTree) (l r : Nat) : SegmentTree × Int :=
  SegmentTree.queryGo (t.n + 1) t l r 0 0 t.n

/-- Specification-level reading of the state: the effective value of leaf
segment `i` is the `tree` entry of the leaf covering `i` plus the pending
`lazy` of every internal node on the root-to-leaf path (the spec's "effective
value", the same accumulation the source's `getTreeVisualization` performs). -/
def SegmentTree.effGo : Nat → SegmentTree → Nat → Nat → Nat → Nat → Int
  | 0, _, _, _, _, _ => 0
  | fuel + 1, t, i, node, s, e =>
    if e ≤ s + 1 then t.tree node
    else
      t.lazy node +
        (if i < (s + e) / 2 then SegmentTree.effGo fuel t i (2 * node + 1) s ((s + e) / 2)
         else SegmentTree.effGo fuel t i (2 * node + 2) ((s + e) / 2) e)

/-- Effective value of leaf segment `i`, read from the root. -/
def SegmentTree.eff (t : SegmentTree) (i : Nat) : Int :=
  SegmentTree.effGo (t.n + 1) t i 0 0 t.n

/-- Over-approximation of the set of array indices `update`/`query` touch when
invoked on `(node, s, e)`: the node itself in every non-trivial branch, and in
the split branch additionally both children (read and written by `pushDown`
and by the recombination step) plus everything the recursive calls touch.
Mirrors the recursion structure of `update`/`query` exactly. -/
def SegmentTree.touchedGo : Nat → Nat → Nat → Nat → Nat → Nat → List Nat
  | 0, _, _, _, _, _ => []
  | fuel + 1, l, r, node, s, e =>
    if r ≤ s ∨ e ≤ l then []
    else if l ≤ s ∧ e ≤ r then [node]
    else
      node :: (2 * node + 1) :: (2 * node + 2) ::
        (SegmentTree.touchedGo fuel l r (2 * node + 1) s ((s + e) / 2) ++
         SegmentTree.touchedGo fuel l r (2 * node + 2) ((s + e) / 2) e)

/-- Indices touched by a root-level `update`/`query` call. -/
def SegmentTree.touched (n l r : Nat) : List Nat :=
  SegmentTree.touchedGo (n + 1) l r 0 0 n

/-- One entry of the `bookings` log of `SeatBookingSystem` (the `timestamp`
field, informational wall-clock time, is not modelled). -/
structure Booking where
  id : Nat
  seatId : Int
  from_ : Int
  to_ : Int
  active : Bool
deriving DecidableEq

/-- The exact-match predicate used by `cancel` (`b.seatId === seatId &&
b.from === l && b.to === r && b.active`). -/
def exactMatch (seatId l r : Int) (b : Booking) : Bool :=
  b.seatId == seatId && b.from_ == l && b.to_ == r && b.active

/-- The overlap predicate of the conflict scan in `book`
(`b.seatId === seatId && b.active && b.from < r && b.to > l`). -/
def overlapMatch (seatId l r : Int) (b : Booking) : Bool :=
  b.seatId == seatId && b.active && decide (b.from_ < r) && decide (b.to_ > l)

/-- Result of `book` (one constructor per `return` statement; the payloads are
the data interpolated into the returned message / the extra fields). -/
inductive BookResult where
  | invalidSeat (seatId : Int)
  | invalidRange (l r : Int)
  | conflict (conflicts : List (Int × Int))
  | booked (bookingId : Nat)
deriving DecidableEq

/-- `true` exactly on the success result of `book`. -/
def BookResult.isSuccess : BookResult → Bool
  | .booked _ => true
  | _ => false

/-- Result of `cancel` (one constructor per `return` statement). -/
inductive CancelResult where
  | invalidSeat (seatId : Int)
  | invalidRange (l r : Int)
  | notFound
  | ok
deriving DecidableEq

/-- Result of `queryAvailable`: the invalid-range early return, or the list of
available seat indices. -/
inductive AvailResult where
  | invalidRange (l r : Int)
  | ok (available : List Nat)
deriving DecidableEq

/-- The `SeatBookingSystem` class state. -/
structure SeatBookingSystem where
  numSeats : Nat
  numStations : Nat
  numSegments : Nat
  seats : List SegmentTree
  globalTree : SegmentTree
  bookings : List Booking
  operationCount : Nat

/-- `new SeatBookingSystem(numSeats, numStations)`:
`numSegments = numStations - 1`, one zero tree per seat, a zero global tree,
empty log, zero operation counter. -/
def SeatBookingSystem.make (numSeats numStations : Nat) : SeatBookingSystem :=
  { numSeats := numSeats
    numStations := numStations
    numSegments := numStations - 1
    seats := List.replicate numSeats (SegmentTree.make (numStations - 1))
    globalTree := SegmentTree.make (numStations - 1)
    bookings := []
    operationCount := 0 }

/-- `this.seats[s]` (total via a default; every actual access is in bounds). -/
def SeatBookingSystem.seatTree (sys : SeatBookingSystem) (s : Nat) : SegmentTree :=
  sys.seats.getD s (SegmentTree.make 0)

/-- `SeatBookingSystem.book(seatId, l, r)`.  Increments `operationCount`
first, validates, queries the seat's tree (the query itself mutates the tree's
arrays, so the updated tree is stored back in every later branch), and on
success applies `+1` to the seat tree and the global tree and appends an
active booking record with id `bookings.length + 1`. -/
def SeatBookingSystem.book (sys : SeatBookingSystem) (seatId l r : Int) :
    SeatBookingSystem × BookResult :=
  if seatId < 0 ∨ (sys.numSeats : Int) ≤ seatId then
    ({ sys with operationCount := sys.operationCount + 1 }, .invalidSeat seatId)
  else if l < 0 ∨ (sys.numStations : Int) < r ∨ r ≤ l then
    ({ sys with operationCount := sys.operationCount + 1 }, .invalidRange l r)
  else if 0 < ((sys.seatTree seatId.toNat).query l.toNat r.toNat).2 then
    ({ sys with
        operationCount := sys.operationCount + 1,
        seats := sys.seats.set seatId.toNat
          ((sys.seatTree seatId.toNat).query l.toNat r.toNat).1 },
     .conflict ((sys.bookings.filter (overlapMatch seatId l r)).map
       (fun b => (b.from_, b.to_))))
  else
    ({ sys with
        operationCount := sys.operationCount + 1,
        seats := sys.seats.set seatId.toNat
          (((sys.seatTree seatId.toNat).query l.toNat r.toNat).1.update l.toNat r.toNat 1),
        globalTree := sys.globalTree.update l.toNat r.toNat 1,
        bookings := sys.bookings ++
          [{ id := sys.bookings.length + 1, seatId := seatId, from_ := l, to_ := r,
             active := true }] },
     .booked (sys.bookings.length + 1))

/-- Mark the first active exact-match record inactive (the effect of
`booking.active = false` on the record found by `bookings.find(...)`). -/
def markCancelled (bs : List Booking) (seatId l r : Int) : List Booking :=
  match bs with
  | [] => []
  | b :: rest =>
    if exactMatch seatId l r b then { b with active := false } :: rest
    else b :: markCancelled rest seatId l r

/-- `SeatBookingSystem.cancel(seatId, l, r)`.  Increments `operationCount`,
validates, requires an exact active match in the log, then applies `-1` to the
seat tree and the global tree and marks the record inactive. -/
def SeatBookingSystem.cancel (sys : SeatBookingSystem) (seatId l r : Int) :
    SeatBookingSystem × CancelResult :=
  if seatId < 0 ∨ (sys.numSeats : Int) ≤ seatId then
    ({ sys with operationCount := sys.operationCount + 1 }, .invalidSeat seatId)
  else if l < 0 ∨ (sys.numStations : Int) < r ∨ r ≤ l then
    ({ sys with operationCount := sys.operationCount + 1 }, .invalidRange l r)
  else if (sys.bookings.find? (exactMatch seatId l r)).isNone then
    ({ sys with operationCount := sys.operationCount + 1 }, .notFound)
  else
    ({ sys with
        operationCount := sys.operationCount + 1,
        seats := sys.seats.set seatId.toNat
          ((sys.seatTree seatId.toNat).update l.toNat r.toNat (-1)),
        globalTree := sys.globalTree.update l.toNat r.toNat (-1),
        bookings := markCancelled sys.bookings seatId l r }, .ok)

/-- The seat loop of `queryAvailable`: query every tree in order (threading the
mutated trees) and collect the indices whose maximum is `0`. -/
def availScan (l r : Nat) : List SegmentTree → Nat → List SegmentTree × List Nat
  | [], _ => ([], [])
  | t :: rest, idx =>
    ((t.query l r).1 :: (availScan l r rest (idx + 1)).1,
     if (t.query l r).2 = 0 then idx :: (availScan l r rest (idx + 1)).2
     else (availScan l r rest (idx + 1)).2)

/-- `SeatBookingSystem.queryAvailable(l, r)`. -/
def SeatBookingSystem.queryAvailable (sys : SeatBookingSystem) (l r : Int) :
    SeatBookingSystem × AvailResult :=
  if l < 0 ∨ (sys.numStations : Int) < r ∨ r ≤ l then
    ({ sys with operationCount := sys.operationCount + 1 }, .invalidRange l r)
  else
    ({ sys with
        operationCount := sys.operationCount + 1,
        seats := (availScan l.toNat r.toNat sys.seats 0).1 },
     .ok (availScan l.toNat r.toNat sys.seats 0).2)

/-- `SeatBookingSystem.isAvailable(seatId, l, r)`: `false` on out-of-bounds
inputs, else whether the seat tree's range maximum is `0`.  Does not touch
`operationCount`. -/
def SeatBookingSystem.isAvailable (sys : SeatBookingSystem) (seatId l r : Int) :
    SeatBookingSystem × Bool :=
  if seatId < 0 ∨ (sys.numSeats : Int) ≤ seatId then (sys, false)
  else if l < 0 ∨ (sys.numStations : Int) < r ∨ r ≤ l then (sys, false)
  else
    ({ sys with seats := sys.seats.set seatId.toNat (
        (sys.seatTree seatId.toNat).query l.toNat r.toNat).1 },
     ((sys.seatTree seatId.toNat).query l.toNat r.toNat).2 == 0)

/-- The `allBooked` loop of `getSeatStatus`: probe segments `i, i+1, ...`
(`k` of them remain) and stop early at the first free one, exactly like the
source's `break`. -/
def statusScanGo : Nat → SegmentTree → Nat → SegmentTree × Bool
  | 0, t, _ => (t, true)
  | k + 1, t, i =>
    if (t.query i (i + 1)).2 = 0 then ((t.query i (i + 1)).1, false)
    else statusScanGo k (t.query i (i + 1)).1 (i + 1)

/-- `SeatBookingSystem.getSeatStatus(seatId)`: `"available"` for out-of-range
ids, else `"available"` / `"booked"` / `"partial"` from the full-range query
and the per-segment sweep.  Does not touch `operationCount`. -/
def SeatBookingSystem.getSeatStatus (sys : SeatBookingSystem) (seatId : Int) :
    SeatBookingSystem × String :=
  if seatId < 0 ∨ (sys.numSeats : Int) ≤ seatId then (sys, "available")
  else if ((sys.seatTree seatId.toNat).query 0 sys.numSegments).2 = 0 then
    ({ sys with seats := sys.seats.set seatId.toNat (
        (sys.seatTree seatId.toNat).query 0 sys.numSegments).1 }, "available")
  else
    ({ sys with seats := sys.seats.set seatId.toNat (statusScanGo sys.numSegments
          ((sys.seatTree seatId.toNat).query 0 sys.numSegments).1 0).1 },
     if (statusScanGo sys.numSegments
          ((sys.seatTree seatId.toNat).query 0 sys.numSegments).1 0).2
     then "booked" else "partial")

/-- `SeatBookingSystem.getActiveBookings()`. -/
def SeatBookingSystem.getActiveBookings (sys : SeatBookingSystem) : Nat :=
  (sys.bookings.filter (fun b => b.active)).length

/-- Number of active records of seat `seatId` covering segment `i`
(reconstruction of per-segment occupancy from the log, used to state the
spec's invariants). -/
def countActiveSeat (bs : List Booking) (seatId : Int) (i : Nat) : Nat :=
  (bs.filter (fun b =>
    b.seatId == seatId && b.active && decide (b.from_ ≤ (i : Int)) &&
      decide ((i : Int) < b.to_))).length

/-- Number of active records (over all seats) covering segment `i`. -/
def countActiveAll (bs : List Booking) (i : Nat) : Nat :=
  (bs.filter (fun b =>
    b.active && decide (b.from_ ≤ (i : Int)) && decide ((i : Int) < b.to_))).length

/-- The states reachable from a freshly constructed system through the public
command/query interface (every method that can touch the state). -/
inductive Reachable : SeatBookingSystem → Prop
  | init (numSeats numStations : Nat) :
      Reachable (SeatBookingSystem.make numSeats numStations)
  | book {sys} (h : Reachable sys) (seatId l r : Int) :
      Reachable (sys.book seatId l r).1
  | cancel {sys} (h : Reachable sys) (seatId l r : Int) :
      Reachable (sys.cancel seatId l r).1
  | queryAvailable {sys} (h : Reachable sys) (l r : Int) :
      Reachable (sys.queryAvailable l r).1
  | isAvailable {sys} (h : Reachable sys) (seatId l r : Int) :
      Reachable (sys.isAvailable seatId l r).1
  | getSeatStatus {sys} (h : Reachable sys) (seatId : Int) :
      Reachable (sys.getSeatStatus seatId).1

/-! ### Heap-index geometry and framing

`update`, `query` and `pushDown` started at node `v` only write heap indices
inside the implicit subtree of `v`, and the effective value of a leaf below
`v` only reads indices inside that subtree.  `Desc` captures the implicit
subtree of the `2i+1 / 2i+2` indexing. -/

/-- `Desc v u`: heap index `u` lies in the implicit subtree rooted at `v`. -/
inductive Desc : Nat → Nat → Prop
  | refl (v : Nat) : Desc v v
  | left {v u : Nat} (h : Desc (2 * v + 1) u) : Desc v u
  | right {v u : Nat} (h : Desc (2 * v + 2) u) : Desc v u

lemma Desc.le {v u : Nat} (h : Desc v u) : v ≤ u := by
  induction h with
  | refl v => exact Nat.le_refl v
  | left h ih => omega
  | right h ih => omega

lemma Desc.trans {v u w : Nat} (h1 : Desc v u) (h2 : Desc u w) : Desc v w := by
  induction h1 with
  | refl v => exact h2
  | left h ih => exact Desc.left (ih h2)
  | right h ih => exact Desc.right (ih h2)

lemma Desc.bounds {v u : Nat} (h : Desc v u) :
    ∃ k, (v + 1) * 2 ^ k ≤ u + 1 ∧ u + 1 < (v + 1) * 2 ^ k + 2 ^ k := by
  induction h with
  | refl v => refine ⟨0, ?_, ?_⟩ <;> simp
  | @left v u h ih =>
    obtain ⟨k, h1, h2⟩ := ih
    have e1 : (v + 1) * 2 ^ (k + 1) = (2 * v + 1 + 1) * 2 ^ k := by ring
    have h2k : (2 : Nat) ^ (k + 1) = 2 ^ k + 2 ^ k := by ring
    exact ⟨k + 1, by omega, by omega⟩
  | @right v u h ih =>
    obtain ⟨k, h1, h2⟩ := ih
    have e1 : (v + 1) * 2 ^ (k + 1) + 2 ^ k = (2 * v + 2 + 1) * 2 ^ k := by ring
    have h2k : (2 : Nat) ^ (k + 1) = 2 ^ k + 2 ^ k := by ring
    exact ⟨k + 1, by omega, by omega⟩

/-- The two child subtrees of a node are disjoint index sets. -/
lemma Desc.children_disjoint {v u : Nat} (h1 : Desc (2 * v + 1) u)
    (h2 : Desc (2 * v + 2) u) : False := by
  obtain ⟨a, ha1, ha2⟩ := h1.bounds
  obtain ⟨b, hb1, hb2⟩ := h2.bounds
  rcases Nat.le_total a b with hab | hab
  · have hpow : (2 : Nat) ^ a ≤ 2 ^ b := Nat.pow_le_pow_right (by omega) hab
    have e1 : (2 * v + 1 + 1) * 2 ^ a + 2 ^ a = (2 * v + 2 + 1) * 2 ^ a := by ring
    have hm : (2 * v + 2 + 1) * 2 ^ a ≤ (2 * v + 2 + 1) * 2 ^ b :=
      Nat.mul_le_mul (Nat.le_refl _) hpow
    omega
  · have hcase : b + 1 ≤ a ∨ b = a := by omega
    rcases hcase with hba | rfl
    · have hpow : (2 : Nat) ^ (b + 1) ≤ 2 ^ a := Nat.pow_le_pow_right (by omega) hba
      have e2 : (2 * v + 2 + 1) * 2 ^ b + 2 ^ b = (v + 2) * 2 ^ (b + 1) := by ring
      have hm2 : (v + 2) * 2 ^ (b + 1) ≤ (v + 2) * 2 ^ a :=
        Nat.mul_le_mul (Nat.le_refl _) hpow
      have e3 : (v + 2) * 2 ^ a ≤ (2 * v + 1 + 1) * 2 ^ a :=
        Nat.mul_le_mul (by omega) (Nat.le_refl _)
      omega
    · have e1 : (2 * v + 1 + 1) * 2 ^ b + 2 ^ b = (2 * v + 2 + 1) * 2 ^ b := by ring
      omega

lemma Desc.child_left (v : Nat) : Desc v (2 * v + 1) := Desc.left (Desc.refl _)

lemma Desc.child_right (v : Nat) : Desc v (2 * v + 2) := Desc.right (Desc.refl _)

lemma not_desc_left_self (v : Nat) : ¬ Desc (2 * v + 1) v := fun h => by
  have := h.le; omega

lemma not_desc_right_self (v : Nat) : ¬ Desc (2 * v + 2) v := fun h => by
  have := h.le; omega

/-- `pushDown v` leaves every index other than `v` and its two children
untouched, and preserves `n`. -/
lemma pushDown_outside (t : SegmentTree) (v u : Nat) (h1 : u ≠ v)
    (h2 : u ≠ 2 * v + 1) (h3 : u ≠ 2 * v + 2) :
    (t.pushDown v).tree u = t.tree u ∧ (t.pushDown v).lazy u = t.lazy u := by
  unfold SegmentTree.pushDown
  split
  · simp [writeFn, h1, h2, h3]
  · exact ⟨rfl, rfl⟩

lemma pushDown_n (t : SegmentTree) (v : Nat) : (t.pushDown v).n = t.n := by
  unfold SegmentTree.pushDown
  split <;> rfl

lemma pullUp_n (t : SegmentTree) (v : Nat) : (t.pullUp v).n = t.n := rfl

lemma pullUp_lazy (t : SegmentTree) (v u : Nat) : (t.pullUp v).lazy u = t.lazy u := rfl

lemma pullUp_tree_ne (t : SegmentTree) (v u : Nat) (h : u ≠ v) :
    (t.pullUp v).tree u = t.tree u := by
  simp [SegmentTree.pullUp, writeFn, h]

lemma updateGo_n (fuel : Nat) : ∀ t l r val v s e,
    (SegmentTree.updateGo fuel t l r val v s e).n = t.n := by
  induction fuel with
  | zero => intro t l r val v s e; rfl
  | succ fuel ih =>
    intro t l r val v s e
    unfold SegmentTree.updateGo
    split
    · rfl
    · split
      · rfl
      · rw [pullUp_n, ih, ih, pushDown_n]

lemma queryGo_n (fuel : Nat) : ∀ t l r v s e,
    (SegmentTree.queryGo fuel t l r v s e).1.n = t.n := by
  induction fuel with
  | zero => intro t l r v s e; rfl
  | succ fuel ih =>
    intro t l r v s e
    unfold SegmentTree.queryGo
    split
    · rfl
    · split
      · rfl
      · rw [ih, ih, pushDown_n]

/-- `update` started at `v` writes only indices in the subtree of `v`. -/
lemma updateGo_outside (fuel : Nat) : ∀ t l r val v s e u, ¬ Desc v u →
    (SegmentTree.updateGo fuel t l r val v s e).tree u = t.tree u ∧
    (SegmentTree.updateGo fuel t l r val v s e).lazy u = t.lazy u := by
  induction fuel with
  | zero => intro t l r val v s e u _; exact ⟨rfl, rfl⟩
  | succ fuel ih =>
    intro t l r val v s e u hu
    have huv : u ≠ v := fun h => hu (h ▸ Desc.refl v)
    have hul : ¬ Desc (2 * v + 1) u := fun h => hu (Desc.left h)
    have hur : ¬ Desc (2 * v + 2) u := fun h => hu (Desc.right h)
    have hulc : u ≠ 2 * v + 1 := fun h => hul (h ▸ Desc.refl _)
    have hurc : u ≠ 2 * v + 2 := fun h => hur (h ▸ Desc.refl _)
    unfold SegmentTree.updateGo
    split
    · exact ⟨rfl, rfl⟩
    · split
      · simp [writeFn, huv]
      · have hp := pushDown_outside t v u huv hulc hurc
        have h1 := ih (t.pushDown v) l r val (2 * v + 1) s ((s + e) / 2) u hul
        have h2 := ih (SegmentTree.updateGo fuel (t.pushDown v) l r val (2 * v + 1) s
          ((s + e) / 2)) l r val (2 * v + 2) ((s + e) / 2) e u hur
        rw [pullUp_tree_ne _ _ _ huv, pullUp_lazy]
        constructor
        · rw [h2.1, h1.1, hp.1]
        · rw [h2.2, h1.2, hp.2]

/-- `query` started at `v` writes only indices in the subtree of `v`. -/
lemma queryGo_outside (fuel : Nat) : ∀ t l r v s e u, ¬ Desc v u →
    (SegmentTree.queryGo fuel t l r v s e).1.tree u = t.tree u ∧
    (SegmentTree.queryGo fuel t l r v s e).1.lazy u = t.lazy u := by
  induction fuel with
  | zero => intro t l r v s e u _; exact ⟨rfl, rfl⟩
  | succ fuel ih =>
    intro t l r v s e u hu
    have huv : u ≠ v := fun h => hu (h ▸ Desc.refl v)
    have hul : ¬ Desc (2 * v + 1) u := fun h => hu (Desc.left h)
    have hur : ¬ Desc (2 * v + 2) u := fun h => hu (Desc.right h)
    have hulc : u ≠ 2 * v + 1 := fun h => hul (h ▸ Desc.refl _)
    have hurc : u ≠ 2 * v + 2 := fun h => hur (h ▸ Desc.refl _)
    unfold SegmentTree.queryGo
    split
    · exact ⟨rfl, rfl⟩
    · split
      · exact ⟨rfl, rfl⟩
      · have hp := pushDown_outside t v u huv hulc hurc
        have h1 := ih (t.pushDown v) l r (2 * v + 1) s ((s + e) / 2) u hul
        have h2 := ih (SegmentTree.queryGo fuel (t.pushDown v) l r (2 * v + 1) s
          ((s + e) / 2)).1 l r (2 * v + 2) ((s + e) / 2) e u hur
        constructor
        · rw [h2.1, h1.1, hp.1]
        · rw [h2.2, h1.2, hp.2]

/-! ### Effective leaf values

The effective value of a leaf (`tree` entry of the leaf plus pending `lazy`
of the internal nodes above it) is exactly maintained by `update` and left
unchanged by the lazy redistribution `query`/`pushDown` perform. -/

lemma effGo_congr (fuel : Nat) : ∀ t t' : SegmentTree, ∀ i v s e : Nat,
    (∀ u, Desc v u → t.tree u = t'.tree u ∧ t.lazy u = t'.lazy u) →
    SegmentTree.effGo fuel t i v s e = SegmentTree.effGo fuel t' i v s e := by
  induction fuel with
  | zero => intros; rfl
  | succ fuel ih =>
    intro t t' i v s e hag
    unfold SegmentTree.effGo
    split
    · exact (hag v (Desc.refl v)).1
    · rw [(hag v (Desc.refl v)).2]
      congr 1
      by_cases hmid : i < (s + e) / 2
      · rw [if_pos hmid, if_pos hmid]
        exact ih t t' i (2 * v + 1) s ((s + e) / 2)
          (fun u hu => hag u (Desc.left hu))
      · rw [if_neg hmid, if_neg hmid]
        exact ih t t' i (2 * v + 2) ((s + e) / 2) e
          (fun u hu => hag u (Desc.right hu))

/-- Adding `lz` to both the `tree` and `lazy` entry of the subtree root adds
`lz` to every effective value below it. -/
lemma effGo_shift (fuel : Nat) (t t' : SegmentTree) (c s' e' i : Nat) (lz : Int)
    (hfuel : 1 ≤ fuel)
    (htree : t'.tree c = t.tree c + lz) (hlazy : t'.lazy c = t.lazy c + lz)
    (hrest : ∀ u, Desc c u → u ≠ c → t'.tree u = t.tree u ∧ t'.lazy u = t.lazy u) :
    SegmentTree.effGo fuel t' i c s' e' = SegmentTree.effGo fuel t i c s' e' + lz := by
  obtain ⟨fuel, rfl⟩ : ∃ f, fuel = f + 1 := ⟨fuel - 1, by omega⟩
  unfold SegmentTree.effGo
  split
  · rw [htree]
  · rw [hlazy]
    have h1 : SegmentTree.effGo fuel t' i (2 * c + 1) s' ((s' + e') / 2) =
        SegmentTree.effGo fuel t i (2 * c + 1) s' ((s' + e') / 2) :=
      effGo_congr fuel t' t i (2 * c + 1) s' ((s' + e') / 2) (fun u hu =>
        hrest u (Desc.left hu) (fun h => by have := hu.le; omega))
    have h2 : SegmentTree.effGo fuel t' i (2 * c + 2) ((s' + e') / 2) e' =
        SegmentTree.effGo fuel t i (2 * c + 2) ((s' + e') / 2) e' :=
      effGo_congr fuel t' t i (2 * c + 2) ((s' + e') / 2) e' (fun u hu =>
        hrest u (Desc.right hu) (fun h => by have := hu.le; omega))
    by_cases hmid : i < (s' + e') / 2
    · rw [if_pos hmid, if_pos hmid, h1]; omega
    · rw [if_neg hmid, if_neg hmid, h2]; omega

lemma pushDown_tree_left (t : SegmentTree) (v : Nat) :
    (t.pushDown v).tree (2 * v + 1) = t.tree (2 * v + 1) + t.lazy v := by
  have h12 : 2 * v + 1 ≠ 2 * v + 2 := by omega
  unfold SegmentTree.pushDown
  split
  · simp [writeFn, h12]
  · rename_i h
    simp only [ne_eq, not_not] at h
    rw [h, add_zero]

lemma pushDown_tree_right (t : SegmentTree) (v : Nat) :
    (t.pushDown v).tree (2 * v + 2) = t.tree (2 * v + 2) + t.lazy v := by
  unfold SegmentTree.pushDown
  split
  · simp [writeFn]
  · rename_i h
    simp only [ne_eq, not_not] at h
    rw [h, add_zero]

lemma pushDown_lazy_left (t : SegmentTree) (v : Nat) :
    (t.pushDown v).lazy (2 * v + 1) = t.lazy (2 * v + 1) + t.lazy v := by
  have h12 : 2 * v + 1 ≠ 2 * v + 2 := by omega
  have h1v : 2 * v + 1 ≠ v := by omega
  unfold SegmentTree.pushDown
  split
  · simp [writeFn, h12, h1v]
  · rename_i h
    simp only [ne_eq, not_not] at h
    rw [h, add_zero]

lemma pushDown_lazy_right (t : SegmentTree) (v : Nat) :
    (t.pushDown v).lazy (2 * v + 2) = t.lazy (2 * v + 2) + t.lazy v := by
  have h2v : 2 * v + 2 ≠ v := by omega
  unfold SegmentTree.pushDown
  split
  · simp [writeFn, h2v]
  · rename_i h
    simp only [ne_eq, not_not] at h
    rw [h, add_zero]

lemma pushDown_lazy_self (t : SegmentTree) (v : Nat) : (t.pushDown v).lazy v = 0 := by
  unfold SegmentTree.pushDown
  split
  · simp [writeFn]
  · rename_i h
    simpa using h

lemma pushDown_tree_self (t : SegmentTree) (v : Nat) : (t.pushDown v).tree v = t.tree v := by
  have h1 : v ≠ 2 * v + 1 := by omega
  have h2 : v ≠ 2 * v + 2 := by omega
  unfold SegmentTree.pushDown
  split
  · simp [writeFn, h1, h2]
  · rfl

lemma effGo_leaf (fuel : Nat) (t : SegmentTree) (v s e i : Nat) (hse : e ≤ s + 1) :
    SegmentTree.effGo (fuel + 1) t i v s e = t.tree v := by
  simp only [SegmentTree.effGo]
  rw [if_pos hse]

lemma effGo_split_left (fuel : Nat) (t : SegmentTree) (v s e i : Nat)
    (hse : ¬ e ≤ s + 1) (hi : i < (s + e) / 2) :
    SegmentTree.effGo (fuel + 1) t i v s e =
      t.lazy v + SegmentTree.effGo fuel t i (2 * v + 1) s ((s + e) / 2) := by
  simp only [SegmentTree.effGo]
  rw [if_neg hse, if_pos hi]

lemma effGo_split_right (fuel : Nat) (t : SegmentTree) (v s e i : Nat)
    (hse : ¬ e ≤ s + 1) (hi : ¬ i < (s + e) / 2) :
    SegmentTree.effGo (fuel + 1) t i v s e =
      t.lazy v + SegmentTree.effGo fuel t i (2 * v + 2) ((s + e) / 2) e := by
  simp only [SegmentTree.effGo]
  rw [if_neg hse, if_neg hi]

/-- Pushing pending lazy down does not change any effective value below the
node: the amount removed from `lazy[v]` is re-added on both children. -/
lemma effGo_pushDown (fuel : Nat) (t : SegmentTree) (v s e i : Nat)
    (hf : 2 ≤ fuel) (hse : s + 2 ≤ e) :
    SegmentTree.effGo fuel (t.pushDown v) i v s e = SegmentTree.effGo fuel t i v s e := by
  obtain ⟨f, rfl⟩ : ∃ f, fuel = f + 2 := ⟨fuel - 2, by omega⟩
  have hnl : ¬ e ≤ s + 1 := by omega
  by_cases hi : i < (s + e) / 2
  · rw [effGo_split_left (f + 1) _ v s e i hnl hi, effGo_split_left (f + 1) t v s e i hnl hi,
      pushDown_lazy_self]
    have hrest : ∀ u, Desc (2 * v + 1) u → u ≠ 2 * v + 1 →
        (t.pushDown v).tree u = t.tree u ∧ (t.pushDown v).lazy u = t.lazy u := by
      intro u hu hne
      have h1 : u ≠ v := by have := hu.le; omega
      have h3 : u ≠ 2 * v + 2 := fun h => Desc.children_disjoint hu (h ▸ Desc.refl _)
      exact pushDown_outside t v u h1 hne h3
    rw [effGo_shift (f + 1) t (t.pushDown v) (2 * v + 1) s ((s + e) / 2) i (t.lazy v)
      (by omega) (pushDown_tree_left t v) (pushDown_lazy_left t v) hrest]
    omega
  · rw [effGo_split_right (f + 1) _ v s e i hnl hi, effGo_split_right (f + 1) t v s e i hnl hi,
      pushDown_lazy_self]
    have hrest : ∀ u, Desc (2 * v + 2) u → u ≠ 2 * v + 2 →
        (t.pushDown v).tree u = t.tree u ∧ (t.pushDown v).lazy u = t.lazy u := by
      intro u hu hne
      have h1 : u ≠ v := by have := hu.le; omega
      have h3 : u ≠ 2 * v + 1 := fun h => Desc.children_disjoint (h ▸ Desc.refl _) hu
      exact pushDown_outside t v u h1 h3 hne
    rw [effGo_shift (f + 1) t (t.pushDown v) (2 * v + 2) ((s + e) / 2) e i (t.lazy v)
      (by omega) (pushDown_tree_right t v) (pushDown_lazy_right t v) hrest]
    omega

/-- The recombination write at an internal node does not change any effective
leaf value (effective values read `tree` only at leaves). -/
lemma effGo_pullUp (fuel : Nat) (t : SegmentTree) (v s e i : Nat) (hse : ¬ e ≤ s + 1) :
    SegmentTree.effGo fuel (t.pullUp v) i v s e = SegmentTree.effGo fuel t i v s e := by
  cases fuel with
  | zero => rfl
  | succ f =>
    by_cases hi : i < (s + e) / 2
    · rw [effGo_split_left f _ v s e i hse hi, effGo_split_left f t v s e i hse hi]
      rw [pullUp_lazy]
      congr 1
      refine effGo_congr f _ t i (2 * v + 1) s ((s + e) / 2) (fun u hu => ?_)
      have hne : u ≠ v := by have := hu.le; omega
      exact ⟨pullUp_tree_ne t v u hne, rfl⟩
    · rw [effGo_split_right f _ v s e i hse hi, effGo_split_right f t v s e i hse hi]
      rw [pullUp_lazy]
      congr 1
      refine effGo_congr f _ t i (2 * v + 2) ((s + e) / 2) e (fun u hu => ?_)
      have hne : u ≠ v := by have := hu.le; omega
      exact ⟨pullUp_tree_ne t v u hne, rfl⟩

/-- The effect of `update(l, r, val)` on effective leaf values: every leaf in
`[l, r) ∩ [s, e)` gains exactly `val`, every other leaf of the subtree is
unchanged. -/
lemma effGo_updateGo (fuel : Nat) : ∀ (t : SegmentTree) (l r : Nat) (val : Int)
    (v s e i : Nat), e - s < fuel → s ≤ i → i < e →
    SegmentTree.effGo fuel (SegmentTree.updateGo fuel t l r val v s e) i v s e =
      SegmentTree.effGo fuel t i v s e + (if l ≤ i ∧ i < r then val else 0) := by
  induction fuel with
  | zero => intro t l r val v s e i hf hsi hie; omega
  | succ fuel ih =>
    intro t l r val v s e i hf hsi hie
    unfold SegmentTree.updateGo
    by_cases hno : r ≤ s ∨ e ≤ l
    · rw [if_pos hno, if_neg (by omega : ¬(l ≤ i ∧ i < r)), add_zero]
    · rw [if_neg hno]
      by_cases hcomp : l ≤ s ∧ e ≤ r
      · rw [if_pos hcomp, if_pos (by omega : l ≤ i ∧ i < r)]
        refine effGo_shift (fuel + 1) t _ v s e i val (by omega) (by simp [writeFn])
          (by simp [writeFn]) (fun u hu hne => ⟨by simp [writeFn, hne], by simp [writeFn, hne]⟩)
      · rw [if_neg hcomp]
        have hse : s + 2 ≤ e := by omega
        have hnl : ¬ e ≤ s + 1 := by omega
        have hmidlt : s < (s + e) / 2 ∧ (s + e) / 2 < e := by omega
        rw [effGo_pullUp (fuel + 1) _ v s e i hnl]
        have hfL : (s + e) / 2 - s < fuel := by omega
        have hfR : e - (s + e) / 2 < fuel := by omega
        have hlz : (SegmentTree.updateGo fuel
            (SegmentTree.updateGo fuel (t.pushDown v) l r val (2 * v + 1) s ((s + e) / 2))
            l r val (2 * v + 2) ((s + e) / 2) e).lazy v =
            (t.pushDown v).lazy v := by
          rw [(updateGo_outside fuel _ l r val (2 * v + 2) ((s + e) / 2) e v
            (not_desc_right_self v)).2,
            (updateGo_outside fuel _ l r val (2 * v + 1) s ((s + e) / 2) v
            (not_desc_left_self v)).2]
        by_cases hi : i < (s + e) / 2
        · rw [effGo_split_left fuel _ v s e i hnl hi]
          rw [hlz]
          have hcongr : SegmentTree.effGo fuel (SegmentTree.updateGo fuel
              (SegmentTree.updateGo fuel (t.pushDown v) l r val (2 * v + 1) s ((s + e) / 2))
              l r val (2 * v + 2) ((s + e) / 2) e) i (2 * v + 1) s ((s + e) / 2) =
              SegmentTree.effGo fuel (SegmentTree.updateGo fuel (t.pushDown v) l r val
                (2 * v + 1) s ((s + e) / 2)) i (2 * v + 1) s ((s + e) / 2) := by
            refine effGo_congr fuel _ _ i (2 * v + 1) s ((s + e) / 2) (fun u hu => ?_)
            have hnd : ¬ Desc (2 * v + 2) u := fun hd => Desc.children_disjoint hu hd
            exact updateGo_outside fuel _ l r val (2 * v + 2) ((s + e) / 2) e u hnd
          rw [hcongr, ih (t.pushDown v) l r val (2 * v + 1) s ((s + e) / 2) i hfL hsi hi]
          rw [← effGo_pushDown (fuel + 1) t v s e i (by omega) hse]
          rw [effGo_split_left fuel (t.pushDown v) v s e i hnl hi]
          omega
        · rw [effGo_split_right fuel _ v s e i hnl hi]
          rw [hlz]
          rw [ih (SegmentTree.updateGo fuel (t.pushDown v) l r val (2 * v + 1) s
            ((s + e) / 2)) l r val (2 * v + 2) ((s + e) / 2) e i hfR (by omega) hie]
          have hcongr : SegmentTree.effGo fuel (SegmentTree.updateGo fuel (t.pushDown v)
              l r val (2 * v + 1) s ((s + e) / 2)) i (2 * v + 2) ((s + e) / 2) e =
              SegmentTree.effGo fuel (t.pushDown v) i (2 * v + 2) ((s + e) / 2) e := by
            refine effGo_congr fuel _ _ i (2 * v + 2) ((s + e) / 2) e (fun u hu => ?_)
            have hnd : ¬ Desc (2 * v + 1) u := fun hd => Desc.children_disjoint hd hu
            exact updateGo_outside fuel _ l r val (2 * v + 1) s ((s + e) / 2) u hnd
          rw [hcongr]
          rw [← effGo_pushDown (fuel + 1) t v s e i (by omega) hse]
          rw [effGo_split_right fuel (t.pushDown v) v s e i hnl hi]
          omega

/-- `query` mutates the arrays only through `pushDown`, so it preserves every
effective leaf value of the subtree it runs on. -/
lemma effGo_queryGo (fuel : Nat) : ∀ (t : SegmentTree) (l r v s e i : Nat),
    e - s < fuel → s ≤ i → i < e →
    SegmentTree.effGo fuel (SegmentTree.queryGo fuel t l r v s e).1 i v s e =
      SegmentTree.effGo fuel t i v s e := by
  induction fuel with
  | zero => intro t l r v s e i hf hsi hie; omega
  | succ fuel ih =>
    intro t l r v s e i hf hsi hie
    unfold SegmentTree.queryGo
    by_cases hno : r ≤ s ∨ e ≤ l
    · rw [if_pos hno]
    · rw [if_neg hno]
      by_cases hcomp : l ≤ s ∧ e ≤ r
      · rw [if_pos hcomp]
      · rw [if_neg hcomp]
        have hse : s + 2 ≤ e := by omega
        have hnl : ¬ e ≤ s + 1 := by omega
        have hfL : (s + e) / 2 - s < fuel := by omega
        have hfR : e - (s + e) / 2 < fuel := by omega
        have hlz : (SegmentTree.queryGo fuel
            (SegmentTree.queryGo fuel (t.pushDown v) l r (2 * v + 1) s ((s + e) / 2)).1
            l r (2 * v + 2) ((s + e) / 2) e).1.lazy v =
            (t.pushDown v).lazy v := by
          rw [(queryGo_outside fuel _ l r (2 * v + 2) ((s + e) / 2) e v
            (not_desc_right_self v)).2,
            (queryGo_outside fuel _ l r (2 * v + 1) s ((s + e) / 2) v
            (not_desc_left_self v)).2]
        by_cases hi : i < (s + e) / 2
        · rw [effGo_split_left fuel _ v s e i hnl hi, hlz]
          have hcongr : SegmentTree.effGo fuel (SegmentTree.queryGo fuel
              (SegmentTree.queryGo fuel (t.pushDown v) l r (2 * v + 1) s ((s + e) / 2)).1
              l r (2 * v + 2) ((s + e) / 2) e).1 i (2 * v + 1) s ((s + e) / 2) =
              SegmentTree.effGo fuel (SegmentTree.queryGo fuel (t.pushDown v) l r
                (2 * v + 1) s ((s + e) / 2)).1 i (2 * v + 1) s ((s + e) / 2) := by
            refine effGo_congr fuel _ _ i (2 * v + 1) s ((s + e) / 2) (fun u hu => ?_)
            have hnd : ¬ Desc (2 * v + 2) u := fun hd => Desc.children_disjoint hu hd
            exact queryGo_outside fuel _ l r (2 * v + 2) ((s + e) / 2) e u hnd
          rw [hcongr, ih (t.pushDown v) l r (2 * v + 1) s ((s + e) / 2) i hfL hsi hi]
          rw [← effGo_pushDown (fuel + 1) t v s e i (by omega) hse]
          rw [effGo_split_left fuel (t.pushDown v) v s e i hnl hi]
        · rw [effGo_split_right fuel _ v s e i hnl hi, hlz]
          rw [ih (SegmentTree.queryGo fuel (t.pushDown v) l r (2 * v + 1) s
            ((s + e) / 2)).1 l r (2 * v + 2) ((s + e) / 2) e i hfR (by omega) hie]
          have hcongr : SegmentTree.effGo fuel (SegmentTree.queryGo fuel (t.pushDown v)
              l r (2 * v + 1) s ((s + e) / 2)).1 i (2 * v + 2) ((s + e) / 2) e =
              SegmentTree.effGo fuel (t.pushDown v) i (2 * v + 2) ((s + e) / 2) e := by
            refine effGo_congr fuel _ _ i (2 * v + 2) ((s + e) / 2) e (fun u hu => ?_)
            have hnd : ¬ Desc (2 * v + 1) u := fun hd => Desc.children_disjoint hd hu
            exact queryGo_outside fuel _ l r (2 * v + 1) s ((s + e) / 2) u hnd
          rw [hcongr]
          rw [← effGo_pushDown (fuel + 1) t v s e i (by omega) hse]
          rw [effGo_split_right fuel (t.pushDown v) v s e i hnl hi]

/-- Root-level form: `update(l, r, val)` adds `val` to the effective value of
exactly the leaves in `[l, r)` (within `[0, n)`) and preserves the others. -/
lemma eff_update (t : SegmentTree) (l r : Nat) (val : Int) (i : Nat) (hi : i < t.n) :
    (t.update l r val).eff i = t.eff i + (if l ≤ i ∧ i < r then val else 0) := by
  unfold SegmentTree.eff SegmentTree.update
  rw [updateGo_n]
  exact effGo_updateGo (t.n + 1) t l r val 0 0 t.n i (by omega) (by omega) hi

/-- Root-level form: `query` preserves every effective leaf value. -/
lemma eff_query (t : SegmentTree) (l r : Nat) (i : Nat) (hi : i < t.n) :
    (t.query l r).1.eff i = t.eff i := by
  unfold SegmentTree.eff SegmentTree.query
  rw [queryGo_n]
  exact effGo_queryGo (t.n + 1) t l r 0 0 t.n i (by omega) (by omega) hi

lemma update_n (t : SegmentTree) (l r : Nat) (val : Int) : (t.update l r val).n = t.n := by
  unfold SegmentTree.update
  rw [updateGo_n]

lemma query_n (t : SegmentTree) (l r : Nat) : (t.query l r).1.n = t.n := by
  unfold SegmentTree.query
  rw [queryGo_n]

/-- A single-segment query `query(i, i+1)` descends to the leaf of `i` and
returns its effective value, clamped from below by the `0` of the
no-overlap branches combined in with `max` (except when the root itself is
the leaf). -/
lemma queryGo_leaf_val (fuel : Nat) : ∀ (t : SegmentTree) (v s e i : Nat),
    e - s < fuel → s ≤ i → i < e →
    (SegmentTree.queryGo fuel t i (i + 1) v s e).2 =
      (if e ≤ s + 1 then SegmentTree.effGo fuel t i v s e
       else max (SegmentTree.effGo fuel t i v s e) 0) := by
  induction fuel with
  | zero => intro t v s e i hf _ _; omega
  | succ fuel ih =>
    intro t v s e i hf hsi hie
    simp only [SegmentTree.queryGo]
    rw [if_neg (show ¬(i + 1 ≤ s ∨ e ≤ i) by omega)]
    by_cases hcomp : i ≤ s ∧ e ≤ i + 1
    · rw [if_pos hcomp]
      have hleaf : e ≤ s + 1 := by omega
      rw [if_pos hleaf, effGo_leaf fuel t v s e i hleaf]
    · rw [if_neg hcomp]
      have hse : s + 2 ≤ e := by omega
      have hnl : ¬ e ≤ s + 1 := by omega
      have hfL : (s + e) / 2 - s < fuel := by omega
      have hfR : e - (s + e) / 2 < fuel := by omega
      obtain ⟨f, rfl⟩ : ∃ f, fuel = f + 1 := ⟨fuel - 1, by omega⟩
      rw [if_neg hnl]
      by_cases hi : i < (s + e) / 2
      · have hR : SegmentTree.queryGo (f + 1)
            (SegmentTree.queryGo (f + 1) (t.pushDown v) i (i + 1) (2 * v + 1) s
              ((s + e) / 2)).1 i (i + 1) (2 * v + 2) ((s + e) / 2) e =
            ((SegmentTree.queryGo (f + 1) (t.pushDown v) i (i + 1) (2 * v + 1) s
              ((s + e) / 2)).1, 0) := by
          simp only [SegmentTree.queryGo]
          rw [if_pos (show i + 1 ≤ (s + e) / 2 ∨ e ≤ i by omega)]
        rw [hR]
        have hE : SegmentTree.effGo (f + 1) (t.pushDown v) i (2 * v + 1) s ((s + e) / 2) =
            SegmentTree.effGo (f + 1 + 1) t i v s e := by
          rw [← effGo_pushDown (f + 1 + 1) t v s e i (by omega) hse,
            effGo_split_left (f + 1) (t.pushDown v) v s e i hnl hi, pushDown_lazy_self,
            zero_add]
        rw [ih (t.pushDown v) (2 * v + 1) s ((s + e) / 2) i hfL hsi hi, hE]
        by_cases hleafL : (s + e) / 2 ≤ s + 1
        · rw [if_pos hleafL]
        · rw [if_neg hleafL, max_assoc, max_self]
      · have hL : SegmentTree.queryGo (f + 1) (t.pushDown v) i (i + 1) (2 * v + 1) s
            ((s + e) / 2) = (t.pushDown v, 0) := by
          simp only [SegmentTree.queryGo]
          rw [if_pos (show i + 1 ≤ s ∨ (s + e) / 2 ≤ i by omega)]
        rw [hL]
        have hE : SegmentTree.effGo (f + 1) (t.pushDown v) i (2 * v + 2) ((s + e) / 2) e =
            SegmentTree.effGo (f + 1 + 1) t i v s e := by
          rw [← effGo_pushDown (f + 1 + 1) t v s e i (by omega) hse,
            effGo_split_right (f + 1) (t.pushDown v) v s e i hnl hi, pushDown_lazy_self,
            zero_add]
        rw [ih (t.pushDown v) (2 * v + 2) ((s + e) / 2) e i hfR (by omega) hie, hE]
        by_cases hleafR : e ≤ (s + e) / 2 + 1
        · rw [if_pos hleafR, max_comm]
        · rw [if_neg hleafR, max_comm, max_assoc, max_self]

/-- Root form: `query(i, i+1)` returns the effective value of leaf `i`
whenever that value is nonnegative (always the case for occupancy counts). -/
lemma query_leaf_val (t : SegmentTree) (i : Nat) (hi : i < t.n) (hpos : 0 ≤ t.eff i) :
    (t.query i (i + 1)).2 = t.eff i := by
  unfold SegmentTree.query
  rw [queryGo_leaf_val (t.n + 1) t 0 0 t.n i (by omega) (by omega) hi]
  by_cases hn : t.n ≤ 0 + 1
  · rw [if_pos hn]
    rfl
  · rw [if_neg hn]
    exact max_eq_left hpos

/-! ### System-level plumbing -/

lemma getD_replicate {α : Type} (N s : Nat) (x d : α) (h : s < N) :
    (List.replicate N x).getD s d = x := by
  induction N generalizing s with
  | zero => omega
  | succ N ih =>
    cases s with
    | zero => rfl
    | succ s => exact ih s (by omega)

lemma getD_set_self {α : Type} (xs : List α) (s : Nat) (x d : α) (h : s < xs.length) :
    (xs.set s x).getD s d = x := by
  induction xs generalizing s with
  | nil => simp at h
  | cons a rest ih =>
    cases s with
    | zero => rfl
    | succ s => exact ih s (by simpa using h)

lemma getD_set_ne {α : Type} (xs : List α) (s s' : Nat) (x d : α) (h : s' ≠ s) :
    (xs.set s x).getD s' d = xs.getD s' d := by
  induction xs generalizing s s' with
  | nil => rfl
  | cons a rest ih =>
    cases s with
    | zero =>
      cases s' with
      | zero => omega
      | succ s' => rfl
    | succ s =>
      cases s' with
      | zero => rfl
      | succ s' => exact ih s s' (by omega)

/-- Well-formedness of a system state: the seat list has `numSeats` entries
and every tree carries segment count `numSegments`. -/
def SysWF (sys : SeatBookingSystem) : Prop :=
  sys.seats.length = sys.numSeats ∧
  (∀ s, s < sys.numSeats → (sys.seatTree s).n = sys.numSegments) ∧
  sys.globalTree.n = sys.numSegments

lemma sysWF_make (N M : Nat) : SysWF (SeatBookingSystem.make N M) := by
  refine ⟨List.length_replicate .., fun s hs => ?_, rfl⟩
  show ((List.replicate N (SegmentTree.make (M - 1))).getD s (SegmentTree.make 0)).n =
    (SeatBookingSystem.make N M).numSegments
  rw [getD_replicate N s _ _ hs]
  rfl

/-- The success path of `book`, as a state equation. -/
lemma book_success_state (sys : SeatBookingSystem) (seatId l r : Int)
    (h1 : ¬(seatId < 0 ∨ (sys.numSeats : Int) ≤ seatId))
    (h2 : ¬(l < 0 ∨ (sys.numStations : Int) < r ∨ r ≤ l))
    (h3 : ¬(0 < ((sys.seatTree seatId.toNat).query l.toNat r.toNat).2)) :
    sys.book seatId l r =
      ({ sys with
          operationCount := sys.operationCount + 1,
          seats := sys.seats.set seatId.toNat
            (((sys.seatTree seatId.toNat).query l.toNat r.toNat).1.update l.toNat r.toNat 1),
          globalTree := sys.globalTree.update l.toNat r.toNat 1,
          bookings := sys.bookings ++
            [{ id := sys.bookings.length + 1, seatId := seatId, from_ := l, to_ := r,
               active := true }] },
       .booked (sys.bookings.length + 1)) := by
  unfold SeatBookingSystem.book
  rw [if_neg h1, if_neg h2, if_neg h3]

/-- The conflict path of `book`, as a state equation. -/
lemma book_conflict_state (sys : SeatBookingSystem) (seatId l r : Int)
    (h1 : ¬(seatId < 0 ∨ (sys.numSeats : Int) ≤ seatId))
    (h2 : ¬(l < 0 ∨ (sys.numStations : Int) < r ∨ r ≤ l))
    (h3 : 0 < ((sys.seatTree seatId.toNat).query l.toNat r.toNat).2) :
    sys.book seatId l r =
      ({ sys with
          operationCount := sys.operationCount + 1,
          seats := sys.seats.set seatId.toNat
            ((sys.seatTree seatId.toNat).query l.toNat r.toNat).1 },
       .conflict ((sys.bookings.filter (overlapMatch seatId l r)).map
         (fun b => (b.from_, b.to_)))) := by
  unfold SeatBookingSystem.book
  rw [if_neg h1, if_neg h2, if_pos h3]

/-- The success path of `cancel`, as a state equation. -/
lemma cancel_success_state (sys : SeatBookingSystem) (seatId l r : Int)
    (h1 : ¬(seatId < 0 ∨ (sys.numSeats : Int) ≤ seatId))
    (h2 : ¬(l < 0 ∨ (sys.numStations : Int) < r ∨ r ≤ l))
    (h3 : ¬((sys.bookings.find? (exactMatch seatId l r)).isNone = true)) :
    sys.cancel seatId l r =
      ({ sys with
          operationCount := sys.operationCount + 1,
          seats := sys.seats.set seatId.toNat
            ((sys.seatTree seatId.toNat).update l.toNat r.toNat (-1)),
          globalTree := sys.globalTree.update l.toNat r.toNat (-1),
          bookings := markCancelled sys.bookings seatId l r }, .ok) := by
  unfold SeatBookingSystem.cancel
  rw [if_neg h1, if_neg h2, if_neg h3]

/-- A successful `book` reports success exactly on the success path. -/
lemma book_success_conditions (sys : SeatBookingSystem) (seatId l r : Int) (bid : Nat)
    (hb : (sys.book seatId l r).2 = .booked bid) :
    ¬(seatId < 0 ∨ (sys.numSeats : Int) ≤ seatId) ∧
    ¬(l < 0 ∨ (sys.numStations : Int) < r ∨ r ≤ l) ∧
    ¬(0 < ((sys.seatTree seatId.toNat).query l.toNat r.toNat).2) ∧
    bid = sys.bookings.length + 1 := by
  unfold SeatBookingSystem.book at hb
  by_cases h1 : seatId < 0 ∨ (sys.numSeats : Int) ≤ seatId
  · rw [if_pos h1] at hb; simp at hb
  · rw [if_neg h1] at hb
    by_cases h2 : l < 0 ∨ (sys.numStations : Int) < r ∨ r ≤ l
    · rw [if_pos h2] at hb; simp at hb
    · rw [if_neg h2] at hb
      by_cases h3 : 0 < ((sys.seatTree seatId.toNat).query l.toNat r.toNat).2
      · rw [if_pos h3] at hb; simp at hb
      · rw [if_neg h3] at hb
        simp only [] at hb
        refine ⟨h1, h2, h3, ?_⟩
        cases hb
        rfl

lemma availScan_length (l r : Nat) (xs : List SegmentTree) (k : Nat) :
    (availScan l r xs k).1.length = xs.length := by
  induction xs generalizing k with
  | nil => rfl
  | cons t rest ih =>
    show (((t.query l r).1 :: (availScan l r rest (k + 1)).1)).length = rest.length + 1
    rw [List.length_cons, ih (k + 1)]

lemma availScan_getD (l r : Nat) (xs : List SegmentTree) (k s : Nat) (d : SegmentTree) :
    (availScan l r xs k).1.getD s d = if s < xs.length then ((xs.getD s d).query l r).1
      else d := by
  induction xs generalizing k s with
  | nil =>
    show ([] : List SegmentTree).getD s d = _
    rw [if_neg (by simp)]
    cases s <;> rfl
  | cons t rest ih =>
    cases s with
    | zero =>
      rw [if_pos (by simp)]
      rfl
    | succ s =>
      show (availScan l r rest (k + 1)).1.getD s d = _
      rw [ih (k + 1) s]
      by_cases hs : s < rest.length
      · rw [if_pos hs, if_pos (by simpa using Nat.succ_lt_succ hs)]
        rfl
      · rw [if_neg hs, if_neg (by simp; omega)]

lemma statusScanGo_n (k : Nat) : ∀ (t : SegmentTree) (i : Nat),
    (statusScanGo k t i).1.n = t.n := by
  induction k with
  | zero => intro t i; rfl
  | succ k ih =>
    intro t i
    unfold statusScanGo
    split
    · rw [query_n]
    · rw [ih, query_n]

lemma statusScanGo_eff (k : Nat) : ∀ (t : SegmentTree) (i j : Nat), j < t.n →
    (statusScanGo k t i).1.eff j = t.eff j := by
  induction k with
  | zero => intro t i j _; rfl
  | succ k ih =>
    intro t i j hj
    unfold statusScanGo
    split
    · rw [eff_query t i (i + 1) j hj]
    · rw [ih _ (i + 1) j (by rw [query_n]; exact hj), eff_query t i (i + 1) j hj]

lemma sysWF_book (sys : SeatBookingSystem) (h : SysWF sys) (seatId l r : Int) :
    SysWF (sys.book seatId l r).1 := by
  obtain ⟨hlen, hseat, hglob⟩ := h
  unfold SysWF SeatBookingSystem.book
  split
  · exact ⟨hlen, hseat, hglob⟩
  split
  · exact ⟨hlen, hseat, hglob⟩
  split
  · refine ⟨by simpa [List.length_set] using hlen, fun s hs => ?_, hglob⟩
    have hs' : s < sys.numSeats := hs
    show ((sys.seats.set seatId.toNat _).getD s (SegmentTree.make 0)).n = sys.numSegments
    by_cases hss : s = seatId.toNat
    · subst hss
      rw [getD_set_self _ _ _ _ (by omega), query_n]
      exact hseat _ hs'
    · rw [getD_set_ne _ _ _ _ _ hss]
      exact hseat s hs'
  · refine ⟨by simpa [List.length_set] using hlen, fun s hs => ?_, by
      show (sys.globalTree.update _ _ _).n = _
      rw [update_n]; exact hglob⟩
    have hs' : s < sys.numSeats := hs
    show ((sys.seats.set seatId.toNat _).getD s (SegmentTree.make 0)).n = sys.numSegments
    by_cases hss : s = seatId.toNat
    · subst hss
      rw [getD_set_self _ _ _ _ (by omega), update_n, query_n]
      exact hseat _ hs'
    · rw [getD_set_ne _ _ _ _ _ hss]
      exact hseat s hs'

lemma sysWF_cancel (sys : SeatBookingSystem) (h : SysWF sys) (seatId l r : Int) :
    SysWF (sys.cancel seatId l r).1 := by
  obtain ⟨hlen, hseat, hglob⟩ := h
  unfold SysWF SeatBookingSystem.cancel
  split
  · exact ⟨hlen, hseat, hglob⟩
  split
  · exact ⟨hlen, hseat, hglob⟩
  split
  · exact ⟨hlen, hseat, hglob⟩
  · refine ⟨by simpa [List.length_set] using hlen, fun s hs => ?_, by
      show (sys.globalTree.update _ _ _).n = _
      rw [update_n]; exact hglob⟩
    have hs' : s < sys.numSeats := hs
    show ((sys.seats.set seatId.toNat _).getD s (SegmentTree.make 0)).n = sys.numSegments
    by_cases hss : s = seatId.toNat
    · subst hss
      rw [getD_set_self _ _ _ _ (by omega), update_n]
      exact hseat _ hs'
    · rw [getD_set_ne _ _ _ _ _ hss]
      exact hseat s hs'

lemma sysWF_queryAvailable (sys : SeatBookingSystem) (h : SysWF sys) (l r : Int) :
    SysWF (sys.queryAvailable l r).1 := by
  obtain ⟨hlen, hseat, hglob⟩ := h
  unfold SysWF SeatBookingSystem.queryAvailable
  split
  · exact ⟨hlen, hseat, hglob⟩
  · refine ⟨by rw [availScan_length]; exact hlen, fun s hs => ?_, hglob⟩
    have hs' : s < sys.numSeats := hs
    show ((availScan l.toNat r.toNat sys.seats 0).1.getD s (SegmentTree.make 0)).n =
      sys.numSegments
    rw [availScan_getD, if_pos (by omega), query_n]
    exact hseat s hs'

lemma sysWF_isAvailable (sys : SeatBookingSystem) (h : SysWF sys) (seatId l r : Int) :
    SysWF (sys.isAvailable seatId l r).1 := by
  obtain ⟨hlen, hseat, hglob⟩ := h
  unfold SysWF SeatBookingSystem.isAvailable
  split
  · exact ⟨hlen, hseat, hglob⟩
  split
  · exact ⟨hlen, hseat, hglob⟩
  · refine ⟨by simpa [List.length_set] using hlen, fun s hs => ?_, hglob⟩
    have hs' : s < sys.numSeats := hs
    show ((sys.seats.set seatId.toNat _).getD s (SegmentTree.make 0)).n = sys.numSegments
    by_cases hss : s = seatId.toNat
    · subst hss
      rw [getD_set_self _ _ _ _ (by omega), query_n]
      exact hseat _ hs'
    · rw [getD_set_ne _ _ _ _ _ hss]
      exact hseat s hs'

lemma sysWF_getSeatStatus (sys : SeatBookingSystem) (h : SysWF sys) (seatId : Int) :
    SysWF (sys.getSeatStatus seatId).1 := by
  obtain ⟨hlen, hseat, hglob⟩ := h
  unfold SysWF SeatBookingSystem.getSeatStatus
  split
  · exact ⟨hlen, hseat, hglob⟩
  split
  · refine ⟨by simpa [List.length_set] using hlen, fun s hs => ?_, hglob⟩
    have hs' : s < sys.numSeats := hs
    show ((sys.seats.set seatId.toNat _).getD s (SegmentTree.make 0)).n = sys.numSegments
    by_cases hss : s = seatId.toNat
    · subst hss
      rw [getD_set_self _ _ _ _ (by omega), query_n]
      exact hseat _ hs'
    · rw [getD_set_ne _ _ _ _ _ hss]
      exact hseat s hs'
  · refine ⟨by simpa [List.length_set] using hlen, fun s hs => ?_, hglob⟩
    have hs' : s < sys.numSeats := hs
    show ((sys.seats.set seatId.toNat _).getD s (SegmentTree.make 0)).n = sys.numSegments
    by_cases hss : s = seatId.toNat
    · subst hss
      rw [getD_set_self _ _ _ _ (by omega), statusScanGo_n, query_n]
      exact hseat _ hs'
    · rw [getD_set_ne _ _ _ _ _ hss]
      exact hseat s hs'

/-- Every reachable state is well-formed. -/
lemma reachable_wf {sys : SeatBookingSystem} (h : Reachable sys) : SysWF sys := by
  induction h with
  | init N M => exact sysWF_make N M
  | book h seatId l r ih => exact sysWF_book _ ih seatId l r
  | cancel h seatId l r ih => exact sysWF_cancel _ ih seatId l r
  | queryAvailable h l r ih => exact sysWF_queryAvailable _ ih l r
  | isAvailable h seatId l r ih => exact sysWF_isAvailable _ ih seatId l r
  | getSeatStatus h seatId ih => exact sysWF_getSeatStatus _ ih seatId

lemma find?_append_singleton_not_none (p : Booking → Bool) (bs : List Booking)
    (b : Booking) (hp : p b = true) : ¬ ((bs ++ [b]).find? p).isNone = true := by
  induction bs with
  | nil => simp [List.find?_cons, hp]
  | cons a rest ih =>
    rw [List.cons_append, List.find?_cons]
    by_cases pa : p a
    · simp [pa]
    · simp only [Bool.not_eq_true] at pa
      rw [pa]
      exact ih

/-- C1: the claimed guarantee — `queryRangeMax(l', r')` returns the maximum
over leaf segments of the summed deltas — fails on the code.  On a 2-segment
tree, after `applyRangeDelta(0,1,+1)` and `applyRangeDelta(1,2,+1)` the
effective value of each leaf is `1`, yet `queryRangeMax(0,2)` returns `2`:
the recombination step `tree[node] = max(tree[lc]+lazy[lc],
tree[rc]+lazy[rc])` adds each child's own lazy to a child value that already
contains it. -/
theorem claim1_code_eval :
    ((((SegmentTree.make 2).update 0 1 1).update 1 2 1).query 0 2).2 = 2 ∧
    (((SegmentTree.make 2).update 0 1 1).update 1 2 1).eff 0 = 1 ∧
    (((SegmentTree.make 2).update 0 1 1).update 1 2 1).eff 1 = 1 := by decide

/-- C2 counterexample: the claim quantifies over every ledger state, but in a
state that already holds an active booking `[2,3)` on the unit, a first
booking `[0,1)` succeeds and a second booking `[2,3)` — disjoint from the
first (`r1 = 1 ≤ l2 = 2`) — fails with a conflict instead of succeeding. -/
theorem claim2_counterexample :
    (((SeatBookingSystem.make 1 4).book 0 2 3).2 = .booked 1 ∧
      ((((SeatBookingSystem.make 1 4).book 0 2 3).1.book 0 0 1).2 = .booked 2 ∧
        (((((SeatBookingSystem.make 1 4).book 0 2 3).1.book 0 0 1).1.book 0 2 3).2 =
          .conflict [(2, 3)]))) := by decide

/-- C3 counterexample: a rejected `book` (inverted range) does mutate the
ledger state — `operationCount` is incremented before validation. -/
theorem claim3_counterexample :
    ((SeatBookingSystem.make 1 2).book 0 0 0).2 = .invalidRange 0 0 ∧
    ((SeatBookingSystem.make 1 2).book 0 0 0).1.operationCount = 1 ∧
    (SeatBookingSystem.make 1 2).operationCount = 0 := by decide

/-- C4 counterexample: with no exact active match in the (empty) log, the
claim demands a `BookingNotFound` failure, but `cancel(0, 2, 11)` on a
10-station system fails with the invalid-range result instead. -/
theorem claim4_counterexample :
    ((SeatBookingSystem.make 1 10).cancel 0 2 11).2 = .invalidRange 2 11 ∧
    (SeatBookingSystem.make 1 10).bookings = [] := by decide

/-- C6 counterexample: after unit 0 books `[0,1)` and unit 1 books `[1,2)`
(3 stations, 2 segments), every segment is covered by exactly one active
record, so the claimed value of `aggregate.queryRangeMax(0,2)` is `1` — but
the code returns `2`. -/
theorem claim6_counterexample :
    (((((SeatBookingSystem.make 2 3).book 0 0 1).1.book 1 1 2).1.globalTree.query 0 2).2
        = 2 ∧
      countActiveAll ((((SeatBookingSystem.make 2 3).book 0 0 1).1.book 1 1 2).1.bookings) 0
        = 1 ∧
      countActiveAll ((((SeatBookingSystem.make 2 3).book 0 0 1).1.book 1 1 2).1.bookings) 1
        = 1) := by decide

/-- C7 counterexample: with 2 stations the segment count is 1, and the claim
says any `r > segmentCount` must be rejected as `InvalidRange` — but
`book(0, 0, 2)` (with `r = 2 = segmentCount + 1 = numStations`) passes
validation and succeeds. -/
theorem claim7_counterexample :
    ((SeatBookingSystem.make 1 2).book 0 0 2).2 = .booked 1 := by decide

/-- C8 counterexample: in a reachable ledger state (5 stations, trace
`book[0,2)`, `book[2,4)`, `book[1,3)` (conflict), `cancel[0,2)`,
`cancel[2,4)`), a `book(0, 0, 4)` succeeds, yet immediately afterwards
`isAvailable(0, 0, 4)` returns `true` — the corrupted recombination values
make the freshly booked range read as free. -/
theorem claim8_counterexample :
    (let s2 := ((SeatBookingSystem.make 1 5).book 0 0 2).1;
     let s5 := (((s2.book 0 2 4).1.book 0 1 3).1.cancel 0 0 2).1;
     let s6 := ((s5.cancel 0 2 4).1.book 0 0 4);
     s6.2 = .booked 3 ∧ (s6.1.isAvailable 0 0 4).2 = true) := by decide

/-- C10: `getSeatStatus` with a seat id outside `[0, numSeats)` returns the
string `"available"` (and leaves the state untouched); an invalid unit is
indistinguishable from a fully free one. -/
theorem claim10_thm (sys : SeatBookingSystem) (seatId : Int)
    (h : seatId < 0 ∨ (sys.numSeats : Int) ≤ seatId) :
    (sys.getSeatStatus seatId).2 = "available" ∧ (sys.getSeatStatus seatId).1 = sys := by
  unfold SeatBookingSystem.getSeatStatus
  rw [if_pos h]
  exact ⟨rfl, rfl⟩

/-- Witness for C10 at a concrete out-of-range id. -/
theorem claim10_witness :
    ((SeatBookingSystem.make 1 2).getSeatStatus 5).2 = "available" ∧
    ((SeatBookingSystem.make 1 2).getSeatStatus 5).1 = SeatBookingSystem.make 1 2 :=
  claim10_thm (SeatBookingSystem.make 1 2) 5 (by decide)

/-- C7 amended: `book` returns the invalid-seat failure exactly when the seat
id is outside `[0, numSeats)`, and the invalid-range failure exactly when (the
id being in bounds) `l < 0`, `r > numStations = segmentCount + 1`, or
`l ≥ r`; in particular `r = segmentCount + 1` is accepted, not rejected. -/
theorem claim7_amended_thm (sys : SeatBookingSystem) (seatId l r : Int) :
    ((sys.book seatId l r).2 = .invalidSeat seatId ↔
      seatId < 0 ∨ (sys.numSeats : Int) ≤ seatId) ∧
    ((sys.book seatId l r).2 = .invalidRange l r ↔
      ¬(seatId < 0 ∨ (sys.numSeats : Int) ≤ seatId) ∧
        (l < 0 ∨ (sys.numStations : Int) < r ∨ r ≤ l)) := by
  unfold SeatBookingSystem.book
  by_cases h1 : seatId < 0 ∨ (sys.numSeats : Int) ≤ seatId
  · simp [h1]
  · by_cases h2 : l < 0 ∨ (sys.numStations : Int) < r ∨ r ≤ l
    · simp [h1, h2]
    · simp only [if_neg h1, if_neg h2]
      constructor
      · constructor
        · intro hc
          split at hc <;> simp_all
        · intro hc
          exact absurd hc h1
      · constructor
        · intro hc
          split at hc <;> simp_all
        · intro hc
          exact absurd hc.2 h2

/-- C5: from any reachable ledger state, a successful `book(s, l, r)`
immediately followed by `cancel(s, l, r)` succeeds and restores the effective
value of every leaf segment of unit `s`'s tree and of the aggregate tree to
its pre-booking value (round-trip identity on effective values). -/
theorem claim5_thm (sys : SeatBookingSystem) (hreach : Reachable sys)
    (seatId l r : Int) (bid : Nat)
    (hb : (sys.book seatId l r).2 = .booked bid) :
    ((sys.book seatId l r).1.cancel seatId l r).2 = .ok ∧
    (∀ i, i < sys.numSegments →
      (((sys.book seatId l r).1.cancel seatId l r).1.seatTree seatId.toNat).eff i =
        (sys.seatTree seatId.toNat).eff i) ∧
    (∀ i, i < sys.numSegments →
      ((sys.book seatId l r).1.cancel seatId l r).1.globalTree.eff i =
        sys.globalTree.eff i) := by
  obtain ⟨hlen, hseat, hglob⟩ := reachable_wf hreach
  obtain ⟨h1, h2, h3, rfl⟩ := book_success_conditions sys seatId l r bid hb
  have hbs := book_success_state sys seatId l r h1 h2 h3
  have hs0 : seatId.toNat < sys.numSeats := by omega
  have hB : (sys.book seatId l r).1 =
      { sys with
          operationCount := sys.operationCount + 1,
          seats := sys.seats.set seatId.toNat
            (((sys.seatTree seatId.toNat).query l.toNat r.toNat).1.update l.toNat r.toNat 1),
          globalTree := sys.globalTree.update l.toNat r.toNat 1,
          bookings := sys.bookings ++
            [{ id := sys.bookings.length + 1, seatId := seatId, from_ := l, to_ := r,
               active := true }] } := by rw [hbs]
  rw [hB]
  have hcs := cancel_success_state
    { sys with
        operationCount := sys.operationCount + 1,
        seats := sys.seats.set seatId.toNat
          (((sys.seatTree seatId.toNat).query l.toNat r.toNat).1.update l.toNat r.toNat 1),
        globalTree := sys.globalTree.update l.toNat r.toNat 1,
        bookings := sys.bookings ++
          [{ id := sys.bookings.length + 1, seatId := seatId, from_ := l, to_ := r,
             active := true }] }
    seatId l r h1 h2
    (find?_append_singleton_not_none _ sys.bookings _ (by simp [exactMatch]))
  rw [hcs]
  have hseatTreeB : ∀ d : SegmentTree,
      (sys.seats.set seatId.toNat
        (((sys.seatTree seatId.toNat).query l.toNat r.toNat).1.update l.toNat r.toNat
          1)).getD seatId.toNat d =
      ((sys.seatTree seatId.toNat).query l.toNat r.toNat).1.update l.toNat r.toNat 1 :=
    fun d => getD_set_self _ _ _ _ (by omega)
  refine ⟨rfl, fun i hi => ?_, fun i hi => ?_⟩
  · show ((((sys.seats.set seatId.toNat _).set seatId.toNat _)).getD seatId.toNat
      (SegmentTree.make 0)).eff i = _
    rw [getD_set_self _ _ _ _ (by rw [List.length_set]; omega)]
    show ((((sys.seats.set seatId.toNat _)).getD seatId.toNat
        (SegmentTree.make 0)).update l.toNat r.toNat (-1)).eff i = _
    rw [hseatTreeB]
    have hn0 : (sys.seatTree seatId.toNat).n = sys.numSegments := hseat _ hs0
    have hnq : ((sys.seatTree seatId.toNat).query l.toNat r.toNat).1.n = sys.numSegments := by
      rw [query_n, hn0]
    have hnu : (((sys.seatTree seatId.toNat).query l.toNat r.toNat).1.update l.toNat
        r.toNat 1).n = sys.numSegments := by rw [update_n, hnq]
    rw [eff_update _ _ _ _ i (by omega), eff_update _ _ _ _ i (by omega),
      eff_query _ _ _ i (by omega)]
    by_cases hcond : l.toNat ≤ i ∧ i < r.toNat
    · rw [if_pos hcond, if_pos hcond]; omega
    · rw [if_neg hcond, if_neg hcond]; omega
  · show ((sys.globalTree.update l.toNat r.toNat 1).update l.toNat r.toNat (-1)).eff i = _
    have hn1 : (sys.globalTree.update l.toNat r.toNat 1).n = sys.numSegments := by
      rw [update_n, hglob]
    rw [eff_update _ _ _ _ i (by omega), eff_update _ _ _ _ i (by omega)]
    by_cases hcond : l.toNat ≤ i ∧ i < r.toNat
    · rw [if_pos hcond, if_pos hcond]; omega
    · rw [if_neg hcond, if_neg hcond]; omega

/-- Witness for C5 on a concrete run (1 seat, 3 stations, book then cancel
`[0, 1)`). -/
theorem claim5_witness :
    (((SeatBookingSystem.make 1 3).book 0 0 1).1.cancel 0 0 1).2 = .ok ∧
    (∀ i, i < (SeatBookingSystem.make 1 3).numSegments →
      ((((SeatBookingSystem.make 1 3).book 0 0 1).1.cancel 0 0 1).1.seatTree
        (0 : Int).toNat).eff i =
        ((SeatBookingSystem.make 1 3).seatTree (0 : Int).toNat).eff i) ∧
    (∀ i, i < (SeatBookingSystem.make 1 3).numSegments →
      (((SeatBookingSystem.make 1 3).book 0 0 1).1.cancel 0 0 1).1.globalTree.eff i =
        (SeatBookingSystem.make 1 3).globalTree.eff i) :=
  claim5_thm (SeatBookingSystem.make 1 3) (Reachable.init 1 3) 0 0 1 1 (by decide)

/-- C3 amended: a rejected `book` leaves the records, the aggregate tree and
every tree's effective leaf values unchanged (the conflict path only
redistributes lazy inside the queried unit tree), a rejected `cancel` or
`queryAvailable` leaves everything unchanged — except that `operationCount`
is incremented by every command, including rejected ones. -/
theorem claim3_amended_thm (sys : SeatBookingSystem) (hreach : Reachable sys)
    (seatId l r : Int) :
    ((sys.book seatId l r).2.isSuccess = false →
      (sys.book seatId l r).1.bookings = sys.bookings ∧
      (sys.book seatId l r).1.operationCount = sys.operationCount + 1 ∧
      (sys.book seatId l r).1.globalTree = sys.globalTree ∧
      (∀ s i, s < sys.numSeats → i < sys.numSegments →
        ((sys.book seatId l r).1.seatTree s).eff i = (sys.seatTree s).eff i)) ∧
    ((sys.cancel seatId l r).2 ≠ .ok →
      (sys.cancel seatId l r).1 =
        { sys with operationCount := sys.operationCount + 1 }) ∧
    ((sys.queryAvailable l r).2 = .invalidRange l r →
      (sys.queryAvailable l r).1 =
        { sys with operationCount := sys.operationCount + 1 }) := by
  obtain ⟨hlen, hseat, hglob⟩ := reachable_wf hreach
  refine ⟨?_, ?_, ?_⟩
  · intro hfail
    unfold SeatBookingSystem.book at hfail ⊢
    by_cases h1 : seatId < 0 ∨ (sys.numSeats : Int) ≤ seatId
    · rw [if_pos h1]
      exact ⟨rfl, rfl, rfl, fun s i _ _ => rfl⟩
    · rw [if_neg h1] at hfail ⊢
      by_cases h2 : l < 0 ∨ (sys.numStations : Int) < r ∨ r ≤ l
      · rw [if_pos h2]
        exact ⟨rfl, rfl, rfl, fun s i _ _ => rfl⟩
      · rw [if_neg h2] at hfail ⊢
        by_cases h3 : 0 < ((sys.seatTree seatId.toNat).query l.toNat r.toNat).2
        · rw [if_pos h3]
          refine ⟨rfl, rfl, rfl, fun s i hs hi => ?_⟩
          show ((sys.seats.set seatId.toNat _).getD s (SegmentTree.make 0)).eff i = _
          by_cases hss : s = seatId.toNat
          · subst hss
            rw [getD_set_self _ _ _ _ (by omega)]
            exact eff_query _ _ _ i (by rw [hseat _ hs]; exact hi)
          · rw [getD_set_ne _ _ _ _ _ hss]
            rfl
        · rw [if_neg h3] at hfail
          simp [BookResult.isSuccess] at hfail
  · intro hfail
    unfold SeatBookingSystem.cancel at hfail ⊢
    by_cases h1 : seatId < 0 ∨ (sys.numSeats : Int) ≤ seatId
    · rw [if_pos h1]
    · rw [if_neg h1] at hfail ⊢
      by_cases h2 : l < 0 ∨ (sys.numStations : Int) < r ∨ r ≤ l
      · rw [if_pos h2]
      · rw [if_neg h2] at hfail ⊢
        by_cases h3 : (sys.bookings.find? (exactMatch seatId l r)).isNone = true
        · rw [if_pos h3]
        · rw [if_neg h3] at hfail
          exact absurd rfl hfail
  · intro hfail
    unfold SeatBookingSystem.queryAvailable at hfail ⊢
    by_cases h2 : l < 0 ∨ (sys.numStations : Int) < r ∨ r ≤ l
    · rw [if_pos h2]
    · rw [if_neg h2] at hfail
      simp at hfail

/-- Witness for C3 on concrete rejected commands (inverted book range,
cancel with no matching record, inverted query range). -/
theorem claim3_amended_witness :
    (((SeatBookingSystem.make 1 2).book 0 0 0).1.operationCount =
      (SeatBookingSystem.make 1 2).operationCount + 1) ∧
    ((SeatBookingSystem.make 1 2).cancel 0 0 1).1 =
      { SeatBookingSystem.make 1 2 with
          operationCount := (SeatBookingSystem.make 1 2).operationCount + 1 } ∧
    ((SeatBookingSystem.make 1 2).queryAvailable 0 0).1 =
      { SeatBookingSystem.make 1 2 with
          operationCount := (SeatBookingSystem.make 1 2).operationCount + 1 } :=
  ⟨((claim3_amended_thm _ (Reachable.init 1 2) 0 0 0).1 (by decide)).2.1,
   (claim3_amended_thm _ (Reachable.init 1 2) 0 0 1).2.1 (by decide),
   (claim3_amended_thm _ (Reachable.init 1 2) 0 0 0).2.2 (by decide)⟩

lemma markCancelled_active_count (bs : List Booking) (sid l r : Int)
    (h : ¬ ((bs.find? (exactMatch sid l r)).isNone = true)) :
    ((markCancelled bs sid l r).filter (fun b => b.active)).length + 1 =
      (bs.filter (fun b => b.active)).length := by
  induction bs with
  | nil => simp [List.find?] at h
  | cons b rest ih =>
    by_cases hb : exactMatch sid l r b
    · have hactive : b.active = true := by
        have hx := hb
        simp [exactMatch] at hx
        tauto
      show ((markCancelled (b :: rest) sid l r).filter (fun b => b.active)).length + 1 = _
      unfold markCancelled
      rw [if_pos hb]
      rw [List.filter_cons, List.filter_cons]
      simp [hactive]
    · show ((markCancelled (b :: rest) sid l r).filter (fun b => b.active)).length + 1 = _
      unfold markCancelled
      rw [if_neg hb]
      rw [List.filter_cons, List.filter_cons]
      have hrest : ¬ ((rest.find? (exactMatch sid l r)).isNone = true) := by
        rw [List.find?_cons] at h
        simp only [Bool.not_eq_true] at hb
        rw [hb] at h
        exact h
      by_cases hba : b.active = true
      · have := ih hrest
        simp only [hba, if_pos]
        simp only [List.length_cons]
        omega
      · have := ih hrest
        simp only [hba]
        simpa [hba] using this

/-- C4 amended: for in-bounds inputs, `cancel(s, l, r)` succeeds exactly when
the log holds an active record with that seat and with `from == l` and
`to == r`; with no such exact match it fails with the not-found result and
leaves the whole state (trees included) unchanged except the operation
counter; on a match it subtracts `1` from the effective value of the leaves
of `[l, r)` on both the unit tree and the aggregate tree and retires exactly
one active record. -/
theorem claim4_amended_thm (sys : SeatBookingSystem) (hreach : Reachable sys)
    (seatId l r : Int)
    (h1 : ¬(seatId < 0 ∨ (sys.numSeats : Int) ≤ seatId))
    (h2 : ¬(l < 0 ∨ (sys.numStations : Int) < r ∨ r ≤ l)) :
    ((sys.cancel seatId l r).2 = .ok ↔
      ∃ b ∈ sys.bookings, b.seatId = seatId ∧ b.from_ = l ∧ b.to_ = r ∧
        b.active = true) ∧
    ((¬ ∃ b ∈ sys.bookings, b.seatId = seatId ∧ b.from_ = l ∧ b.to_ = r ∧
        b.active = true) →
      (sys.cancel seatId l r).2 = .notFound ∧
      (sys.cancel seatId l r).1 =
        { sys with operationCount := sys.operationCount + 1 }) ∧
    ((sys.cancel seatId l r).2 = .ok →
      (∀ i, i < sys.numSegments →
        ((sys.cancel seatId l r).1.seatTree seatId.toNat).eff i =
          (sys.seatTree seatId.toNat).eff i -
            (if l.toNat ≤ i ∧ i < r.toNat then 1 else 0)) ∧
      (∀ i, i < sys.numSegments →
        (sys.cancel seatId l r).1.globalTree.eff i =
          sys.globalTree.eff i - (if l.toNat ≤ i ∧ i < r.toNat then 1 else 0)) ∧
      (sys.cancel seatId l r).1.getActiveBookings + 1 = sys.getActiveBookings) := by
  obtain ⟨hlen, hseat, hglob⟩ := reachable_wf hreach
  have hmatch : (∃ b ∈ sys.bookings, b.seatId = seatId ∧ b.from_ = l ∧ b.to_ = r ∧
      b.active = true) ↔ ¬ ((sys.bookings.find? (exactMatch seatId l r)).isNone = true) := by
    rw [Option.isNone_iff_eq_none, List.find?_eq_none]
    push_neg
    constructor
    · rintro ⟨b, hmem, hb1, hb2, hb3, hb4⟩
      exact ⟨b, hmem, by simp [exactMatch, hb1, hb2, hb3, hb4]⟩
    · rintro ⟨b, hmem, hp⟩
      simp [exactMatch] at hp
      exact ⟨b, hmem, by tauto⟩
  by_cases h3 : (sys.bookings.find? (exactMatch seatId l r)).isNone = true
  · have hnotfound : sys.cancel seatId l r =
        ({ sys with operationCount := sys.operationCount + 1 }, .notFound) := by
      unfold SeatBookingSystem.cancel
      rw [if_neg h1, if_neg h2, if_pos h3]
    rw [hnotfound]
    refine ⟨by simp [hmatch, h3], fun _ => ⟨rfl, rfl⟩, by intro hok; simp at hok⟩
  · have hcs := cancel_success_state sys seatId l r h1 h2 h3
    rw [hcs]
    have hs0 : seatId.toNat < sys.numSeats := by omega
    refine ⟨by simp [hmatch, h3], fun hno => absurd (hmatch.mpr h3) hno,
      fun _ => ⟨fun i hi => ?_, fun i hi => ?_, ?_⟩⟩
    · show ((sys.seats.set seatId.toNat _).getD seatId.toNat (SegmentTree.make 0)).eff i = _
      rw [getD_set_self _ _ _ _ (by omega)]
      rw [eff_update _ _ _ _ i (by rw [hseat _ hs0]; exact hi)]
      by_cases hcond : l.toNat ≤ i ∧ i < r.toNat
      · rw [if_pos hcond, if_pos hcond]; omega
      · rw [if_neg hcond, if_neg hcond]; omega
    · show (sys.globalTree.update l.toNat r.toNat (-1)).eff i = _
      rw [eff_update _ _ _ _ i (by rw [hglob]; exact hi)]
      by_cases hcond : l.toNat ≤ i ∧ i < r.toNat
      · rw [if_pos hcond, if_pos hcond]; omega
      · rw [if_neg hcond, if_neg hcond]; omega
    · show ((markCancelled sys.bookings seatId l r).filter (fun b => b.active)).length + 1 =
        (sys.bookings.filter (fun b => b.active)).length
      exact markCancelled_active_count sys.bookings seatId l r h3

/-- Witness for C4: one booking `[0, 2)` on a fresh 3-station system, then
the amended cancellation contract at the same coordinates. -/
theorem claim4_amended_witness :
    (((((SeatBookingSystem.make 1 3).book 0 0 2).1.cancel 0 0 2).2 = .ok ↔
      ∃ b ∈ ((SeatBookingSystem.make 1 3).book 0 0 2).1.bookings,
        b.seatId = 0 ∧ b.from_ = 0 ∧ b.to_ = 2 ∧ b.active = true) ∧
    ((¬ ∃ b ∈ ((SeatBookingSystem.make 1 3).book 0 0 2).1.bookings,
        b.seatId = 0 ∧ b.from_ = 0 ∧ b.to_ = 2 ∧ b.active = true) →
      ((((SeatBookingSystem.make 1 3).book 0 0 2).1.cancel 0 0 2).2 = .notFound ∧
       ((((SeatBookingSystem.make 1 3).book 0 0 2).1.cancel 0 0 2)).1 =
        { ((SeatBookingSystem.make 1 3).book 0 0 2).1 with
            operationCount :=
              ((SeatBookingSystem.make 1 3).book 0 0 2).1.operationCount + 1 })) ∧
    (((((SeatBookingSystem.make 1 3).book 0 0 2).1.cancel 0 0 2)).2 = .ok →
      (∀ i, i < ((SeatBookingSystem.make 1 3).book 0 0 2).1.numSegments →
        (((((SeatBookingSystem.make 1 3).book 0 0 2).1.cancel 0 0 2)).1.seatTree
          (0 : Int).toNat).eff i =
          (((SeatBookingSystem.make 1 3).book 0 0 2).1.seatTree (0 : Int).toNat).eff i -
            (if (0 : Int).toNat ≤ i ∧ i < (2 : Int).toNat then 1 else 0)) ∧
      (∀ i, i < ((SeatBookingSystem.make 1 3).book 0 0 2).1.numSegments →
        ((((SeatBookingSystem.make 1 3).book 0 0 2).1.cancel 0 0 2)).1.globalTree.eff i =
          ((SeatBookingSystem.make 1 3).book 0 0 2).1.globalTree.eff i -
            (if (0 : Int).toNat ≤ i ∧ i < (2 : Int).toNat then 1 else 0)) ∧
      ((((SeatBookingSystem.make 1 3).book 0 0 2).1.cancel 0 0
        2)).1.getActiveBookings + 1 =
        ((SeatBookingSystem.make 1 3).book 0 0 2).1.getActiveBookings)) :=
  claim4_amended_thm _ (Reachable.book (Reachable.init 1 3) 0 0 2) 0 0 2
    (by decide) (by decide)

lemma countActiveSeat_append (bs : List Booking) (bk : Booking) (sid : Int) (i : Nat) :
    countActiveSeat (bs ++ [bk]) sid i =
      countActiveSeat bs sid i +
        (if bk.seatId = sid ∧ bk.active = true ∧ bk.from_ ≤ (i : Int) ∧ (i : Int) < bk.to_
         then 1 else 0) := by
  unfold countActiveSeat
  rw [List.filter_append, List.length_append]
  congr 1
  by_cases hp : bk.seatId = sid ∧ bk.active = true ∧ bk.from_ ≤ (i : Int) ∧ (i : Int) < bk.to_
  · rw [if_pos hp]
    simp [hp.1, hp.2.1, hp.2.2.1, hp.2.2.2]
  · rw [if_neg hp]
    have : (bk.seatId == sid && bk.active && decide (bk.from_ ≤ (i : Int)) &&
        decide ((i : Int) < bk.to_)) = false := by
      by_contra hc
      simp only [Bool.not_eq_false, Bool.and_eq_true, beq_iff_eq, decide_eq_true_eq] at hc
      exact hp ⟨hc.1.1.1, hc.1.1.2, hc.1.2, hc.2⟩
    simp [List.filter, this]

lemma countActiveAll_append (bs : List Booking) (bk : Booking) (i : Nat) :
    countActiveAll (bs ++ [bk]) i =
      countActiveAll bs i +
        (if bk.active = true ∧ bk.from_ ≤ (i : Int) ∧ (i : Int) < bk.to_ then 1 else 0) := by
  unfold countActiveAll
  rw [List.filter_append, List.length_append]
  congr 1
  by_cases hp : bk.active = true ∧ bk.from_ ≤ (i : Int) ∧ (i : Int) < bk.to_
  · rw [if_pos hp]
    simp [hp.1, hp.2.1, hp.2.2]
  · rw [if_neg hp]
    have : (bk.active && decide (bk.from_ ≤ (i : Int)) &&
        decide ((i : Int) < bk.to_)) = false := by
      by_contra hc
      simp only [Bool.not_eq_false, Bool.and_eq_true, decide_eq_true_eq] at hc
      exact hp ⟨hc.1.1, hc.1.2, hc.2⟩
    simp [List.filter, this]

lemma countActiveSeat_markCancelled (bs : List Booking) (sid l r sid' : Int) (i : Nat)
    (h : ¬ ((bs.find? (exactMatch sid l r)).isNone = true)) :
    countActiveSeat (markCancelled bs sid l r) sid' i +
      (if sid = sid' ∧ l ≤ (i : Int) ∧ (i : Int) < r then 1 else 0) =
      countActiveSeat bs sid' i := by
  induction bs with
  | nil => simp [List.find?] at h
  | cons b rest ih =>
    by_cases hb : exactMatch sid l r b
    · have hx := hb
      simp only [exactMatch, Bool.and_eq_true, beq_iff_eq] at hx
      obtain ⟨⟨⟨hb1, hb2⟩, hb3⟩, hb4⟩ := hx
      have hmc : markCancelled (b :: rest) sid l r = { b with active := false } :: rest := by
        unfold markCancelled
        rw [if_pos hb]
      rw [hmc]
      unfold countActiveSeat
      rw [List.filter_cons, List.filter_cons]
      have hh1 : (({ b with active := false } : Booking).seatId == sid' &&
          ({ b with active := false } : Booking).active &&
          decide (({ b with active := false } : Booking).from_ ≤ (i : Int)) &&
          decide ((i : Int) < ({ b with active := false } : Booking).to_)) = false := by
        simp
      rw [hh1]
      by_cases hcov : sid = sid' ∧ l ≤ (i : Int) ∧ (i : Int) < r
      · have hpb : (b.seatId == sid' && b.active && decide (b.from_ ≤ (i : Int)) &&
            decide ((i : Int) < b.to_)) = true := by
          rw [hb1, hb2, hb3, hb4]
          simp [hcov.1, hcov.2.1, hcov.2.2]
        rw [hpb, if_pos hcov]
        simp
      · have hpb : (b.seatId == sid' && b.active && decide (b.from_ ≤ (i : Int)) &&
            decide ((i : Int) < b.to_)) = false := by
          rw [hb1, hb2, hb3, hb4]
          by_contra hc
          simp only [Bool.not_eq_false, Bool.and_eq_true, beq_iff_eq,
            decide_eq_true_eq] at hc
          exact hcov ⟨hc.1.1.1, hc.1.2, hc.2⟩
        rw [hpb, if_neg hcov]
        simp
    · have hrest : ¬ ((rest.find? (exactMatch sid l r)).isNone = true) := by
        rw [List.find?_cons] at h
        simp only [Bool.not_eq_true] at hb
        rw [hb] at h
        exact h
      have hmc : markCancelled (b :: rest) sid l r = b :: markCancelled rest sid l r := by
        unfold markCancelled
        rw [if_neg hb]
        cases rest <;> rfl
      rw [hmc]
      unfold countActiveSeat
      rw [List.filter_cons, List.filter_cons]
      have := ih hrest
      unfold countActiveSeat at this
      by_cases hp : (b.seatId == sid' && b.active && decide (b.from_ ≤ (i : Int)) &&
          decide ((i : Int) < b.to_)) = true
      · simp only [hp]
        simp only [if_pos trivial, List.length_cons]
        omega
      · simp only [Bool.not_eq_true] at hp
        simp only [hp]
        simp only [Bool.false_eq_true, if_false]
        omega

lemma countActiveAll_markCancelled (bs : List Booking) (sid l r : Int) (i : Nat)
    (h : ¬ ((bs.find? (exactMatch sid l r)).isNone = true)) :
    countActiveAll (markCancelled bs sid l r) i +
      (if l ≤ (i : Int) ∧ (i : Int) < r then 1 else 0) =
      countActiveAll bs i := by
  induction bs with
  | nil => simp [List.find?] at h
  | cons b rest ih =>
    by_cases hb : exactMatch sid l r b
    · have hx := hb
      simp only [exactMatch, Bool.and_eq_true, beq_iff_eq] at hx
      obtain ⟨⟨⟨hb1, hb2⟩, hb3⟩, hb4⟩ := hx
      have hmc : markCancelled (b :: rest) sid l r = { b with active := false } :: rest := by
        unfold markCancelled
        rw [if_pos hb]
      rw [hmc]
      unfold countActiveAll
      rw [List.filter_cons, List.filter_cons]
      have hh1 : (({ b with active := false } : Booking).active &&
          decide (({ b with active := false } : Booking).from_ ≤ (i : Int)) &&
          decide ((i : Int) < ({ b with active := false } : Booking).to_)) = false := by
        simp
      rw [hh1]
      by_cases hcov : l ≤ (i : Int) ∧ (i : Int) < r
      · have hpb : (b.active && decide (b.from_ ≤ (i : Int)) &&
            decide ((i : Int) < b.to_)) = true := by
          rw [hb2, hb3, hb4]
          simp [hcov.1, hcov.2]
        rw [hpb, if_pos hcov]
        simp
      · have hpb : (b.active && decide (b.from_ ≤ (i : Int)) &&
            decide ((i : Int) < b.to_)) = false := by
          rw [hb2, hb3, hb4]
          by_contra hc
          simp only [Bool.not_eq_false, Bool.and_eq_true, decide_eq_true_eq] at hc
          exact hcov ⟨hc.1.2, hc.2⟩
        rw [hpb, if_neg hcov]
        simp
    · have hrest : ¬ ((rest.find? (exactMatch sid l r)).isNone = true) := by
        rw [List.find?_cons] at h
        simp only [Bool.not_eq_true] at hb
        rw [hb] at h
        exact h
      have hmc : markCancelled (b :: rest) sid l r = b :: markCancelled rest sid l r := by
        unfold markCancelled
        rw [if_neg hb]
        cases rest <;> rfl
      rw [hmc]
      unfold countActiveAll
      rw [List.filter_cons, List.filter_cons]
      have := ih hrest
      unfold countActiveAll at this
      by_cases hp : (b.active && decide (b.from_ ≤ (i : Int)) &&
          decide ((i : Int) < b.to_)) = true
      · simp only [hp]
        simp only [if_pos trivial, List.length_cons]
        omega
      · simp only [Bool.not_eq_true] at hp
        simp only [hp]
        simp only [Bool.false_eq_true, if_false]
        omega

/-- Appending a fresh active record (the shape `book` appends). -/
lemma countActiveSeat_append_mk (bs : List Booking) (bid : Nat) (sid0 l r sid : Int)
    (i : Nat) :
    countActiveSeat (bs ++
        [{ id := bid, seatId := sid0, from_ := l, to_ := r, active := true }]) sid i =
      countActiveSeat bs sid i +
        (if sid0 = sid ∧ l ≤ (i : Int) ∧ (i : Int) < r then 1 else 0) := by
  rw [countActiveSeat_append]
  congr 1
  by_cases hp : sid0 = sid ∧ l ≤ (i : Int) ∧ (i : Int) < r
  · rw [if_pos ⟨hp.1, rfl, hp.2.1, hp.2.2⟩, if_pos hp]
  · rw [if_neg (fun hc => hp ⟨hc.1, hc.2.2.1, hc.2.2.2⟩), if_neg hp]

/-- Aggregate version of `countActiveSeat_append_mk`. -/
lemma countActiveAll_append_mk (bs : List Booking) (bid : Nat) (sid0 l r : Int) (i : Nat) :
    countActiveAll (bs ++
        [{ id := bid, seatId := sid0, from_ := l, to_ := r, active := true }]) i =
      countActiveAll bs i + (if l ≤ (i : Int) ∧ (i : Int) < r then 1 else 0) := by
  rw [countActiveAll_append]
  congr 1
  by_cases hp : l ≤ (i : Int) ∧ (i : Int) < r
  · rw [if_pos ⟨rfl, hp.1, hp.2⟩, if_pos hp]
  · rw [if_neg (fun hc => hp ⟨hc.2.1, hc.2.2⟩), if_neg hp]

lemma effGo_make (n : Nat) (fuel : Nat) : ∀ i v s e,
    SegmentTree.effGo fuel (SegmentTree.make n) i v s e = 0 := by
  induction fuel with
  | zero => intro i v s e; rfl
  | succ fuel ih =>
    intro i v s e
    simp only [SegmentTree.effGo]
    by_cases hse : e ≤ s + 1
    · rw [if_pos hse]
      rfl
    · rw [if_neg hse]
      by_cases hi : i < (s + e) / 2
      · rw [if_pos hi, ih]
        simp [SegmentTree.make]
      · rw [if_neg hi, ih]
        simp [SegmentTree.make]

/-- A freshly constructed tree has every effective leaf value `0`. -/
lemma eff_make (n : Nat) (i : Nat) : (SegmentTree.make n).eff i = 0 :=
  effGo_make n (n + 1) i 0 0 n

/-- The central counting invariant: every seat tree's effective leaf values
equal the number of active records of that seat covering the leaf's segment,
and the global tree's effective leaf values equal the total number of active
records covering the segment. -/
def SysCount (sys : SeatBookingSystem) : Prop :=
  (∀ s, s < sys.numSeats → ∀ i, i < sys.numSegments →
    (sys.seatTree s).eff i = (countActiveSeat sys.bookings (s : Int) i : Int)) ∧
  (∀ i, i < sys.numSegments →
    sys.globalTree.eff i = (countActiveAll sys.bookings i : Int))

lemma sysCount_make (N M : Nat) : SysCount (SeatBookingSystem.make N M) := by
  constructor
  · intro s hs i hi
    show ((List.replicate N (SegmentTree.make (M - 1))).getD s (SegmentTree.make 0)).eff i =
      (countActiveSeat [] (s : Int) i : Int)
    rw [getD_replicate N s _ _ hs, eff_make]
    simp [countActiveSeat]
  · intro i hi
    show (SegmentTree.make (M - 1)).eff i = (countActiveAll [] i : Int)
    rw [eff_make]
    simp [countActiveAll]

lemma sysCount_book (sys : SeatBookingSystem) (hwf : SysWF sys) (hc : SysCount sys)
    (seatId l r : Int) : SysCount (sys.book seatId l r).1 := by
  obtain ⟨hlen, hseatn, hglobn⟩ := hwf
  obtain ⟨hseat, hglob⟩ := hc
  unfold SeatBookingSystem.book
  by_cases h1 : seatId < 0 ∨ (sys.numSeats : Int) ≤ seatId
  · rw [if_pos h1]
    exact ⟨hseat, hglob⟩
  rw [if_neg h1]
  by_cases h2 : l < 0 ∨ (sys.numStations : Int) < r ∨ r ≤ l
  · rw [if_pos h2]
    exact ⟨hseat, hglob⟩
  rw [if_neg h2]
  push_neg at h1 h2
  by_cases h3 : 0 < ((sys.seatTree seatId.toNat).query l.toNat r.toNat).2
  · rw [if_pos h3]
    constructor
    · intro s hs i hi
      have hs' : s < sys.numSeats := hs
      have hi' : i < sys.numSegments := hi
      show ((sys.seats.set seatId.toNat _).getD s (SegmentTree.make 0)).eff i =
        (countActiveSeat sys.bookings (s : Int) i : Int)
      by_cases hss : s = seatId.toNat
      · subst hss
        rw [getD_set_self _ _ _ _ (by omega)]
        rw [eff_query _ _ _ _ (by rw [hseatn _ hs']; exact hi')]
        exact hseat _ hs' i hi'
      · rw [getD_set_ne _ _ _ _ _ hss]
        exact hseat s hs' i hi'
    · intro i hi
      exact hglob i hi
  · rw [if_neg h3]
    constructor
    · intro s hs i hi
      have hs' : s < sys.numSeats := hs
      have hi' : i < sys.numSegments := hi
      show ((sys.seats.set seatId.toNat _).getD s (SegmentTree.make 0)).eff i =
        (countActiveSeat (sys.bookings ++
          [{ id := sys.bookings.length + 1, seatId := seatId, from_ := l, to_ := r,
             active := true }]) (s : Int) i : Int)
      rw [countActiveSeat_append_mk]
      by_cases hss : s = seatId.toNat
      · subst hss
        rw [getD_set_self _ _ _ _ (by omega)]
        have hn0 : i < (sys.seatTree seatId.toNat).n := by rw [hseatn _ hs']; exact hi'
        have hn1 : i < ((sys.seatTree seatId.toNat).query l.toNat r.toNat).1.n := by
          rw [query_n]; exact hn0
        rw [eff_update _ _ _ _ _ hn1, eff_query _ _ _ _ hn0, hseat _ hs' i hi']
        by_cases hcond : l.toNat ≤ i ∧ i < r.toNat
        · rw [if_pos hcond, if_pos (show seatId = ((seatId.toNat : Nat) : Int) ∧
            l ≤ (i : Int) ∧ (i : Int) < r from ⟨by omega, by omega, by omega⟩)]
          push_cast
          ring
        · rw [if_neg hcond, if_neg (show ¬(seatId = ((seatId.toNat : Nat) : Int) ∧
            l ≤ (i : Int) ∧ (i : Int) < r) from fun hcon => hcond ⟨by omega, by omega⟩)]
          push_cast
          ring
      · rw [getD_set_ne _ _ _ _ _ hss]
        rw [if_neg (show ¬(seatId = ((s : Nat) : Int) ∧ l ≤ (i : Int) ∧ (i : Int) < r) from
          fun hcon => hss (by omega))]
        show (sys.seatTree s).eff i = _
        rw [hseat s hs' i hi']
        push_cast
        ring
    · intro i hi
      have hi' : i < sys.numSegments := hi
      show (sys.globalTree.update l.toNat r.toNat 1).eff i =
        (countActiveAll (sys.bookings ++
          [{ id := sys.bookings.length + 1, seatId := seatId, from_ := l, to_ := r,
             active := true }]) i : Int)
      rw [countActiveAll_append_mk]
      have hn0 : i < sys.globalTree.n := by rw [hglobn]; exact hi'
      rw [eff_update _ _ _ _ _ hn0, hglob i hi']
      by_cases hcond : l.toNat ≤ i ∧ i < r.toNat
      · rw [if_pos hcond, if_pos (show l ≤ (i : Int) ∧ (i : Int) < r from
          ⟨by omega, by omega⟩)]
        push_cast
        ring
      · rw [if_neg hcond, if_neg (show ¬(l ≤ (i : Int) ∧ (i : Int) < r) from
          fun hcon => hcond ⟨by omega, by omega⟩)]
        push_cast
        ring

lemma sysCount_cancel (sys : SeatBookingSystem) (hwf : SysWF sys) (hc : SysCount sys)
    (seatId l r : Int) : SysCount (sys.cancel seatId l r).1 := by
  obtain ⟨hlen, hseatn, hglobn⟩ := hwf
  obtain ⟨hseat, hglob⟩ := hc
  unfold SeatBookingSystem.cancel
  by_cases h1 : seatId < 0 ∨ (sys.numSeats : Int) ≤ seatId
  · rw [if_pos h1]
    exact ⟨hseat, hglob⟩
  rw [if_neg h1]
  by_cases h2 : l < 0 ∨ (sys.numStations : Int) < r ∨ r ≤ l
  · rw [if_pos h2]
    exact ⟨hseat, hglob⟩
  rw [if_neg h2]
  by_cases h3 : (sys.bookings.find? (exactMatch seatId l r)).isNone = true
  · rw [if_pos h3]
    exact ⟨hseat, hglob⟩
  · rw [if_neg h3]
    push_neg at h1 h2
    constructor
    · intro s hs i hi
      have hs' : s < sys.numSeats := hs
      have hi' : i < sys.numSegments := hi
      show ((sys.seats.set seatId.toNat _).getD s (SegmentTree.make 0)).eff i =
        (countActiveSeat (markCancelled sys.bookings seatId l r) (s : Int) i : Int)
      by_cases hss : s = seatId.toNat
      · subst hss
        rw [getD_set_self _ _ _ _ (by omega)]
        have hn0 : i < (sys.seatTree seatId.toNat).n := by rw [hseatn _ hs']; exact hi'
        rw [eff_update _ _ _ _ _ hn0, hseat _ hs' i hi']
        have hcnt := countActiveSeat_markCancelled sys.bookings seatId l r
          ((seatId.toNat : Nat) : Int) i h3
        by_cases hcond : l.toNat ≤ i ∧ i < r.toNat
        · rw [if_pos (show seatId = ((seatId.toNat : Nat) : Int) ∧ l ≤ (i : Int) ∧
              (i : Int) < r from ⟨by omega, by omega, by omega⟩)] at hcnt
          rw [if_pos hcond]
          omega
        · rw [if_neg (show ¬(seatId = ((seatId.toNat : Nat) : Int) ∧ l ≤ (i : Int) ∧
              (i : Int) < r) from fun hcon => hcond ⟨by omega, by omega⟩)] at hcnt
          rw [if_neg hcond]
          omega
      · rw [getD_set_ne _ _ _ _ _ hss]
        have hcnt := countActiveSeat_markCancelled sys.bookings seatId l r
          ((s : Nat) : Int) i h3
        rw [if_neg (show ¬(seatId = ((s : Nat) : Int) ∧ l ≤ (i : Int) ∧ (i : Int) < r) from
          fun hcon => hss (by omega))] at hcnt
        show (sys.seatTree s).eff i = _
        rw [hseat s hs' i hi']
        omega
    · intro i hi
      have hi' : i < sys.numSegments := hi
      show (sys.globalTree.update l.toNat r.toNat (-1)).eff i =
        (countActiveAll (markCancelled sys.bookings seatId l r) i : Int)
      have hn0 : i < sys.globalTree.n := by rw [hglobn]; exact hi'
      rw [eff_update _ _ _ _ _ hn0, hglob i hi']
      have hcnt := countActiveAll_markCancelled sys.bookings seatId l r i h3
      by_cases hcond : l.toNat ≤ i ∧ i < r.toNat
      · rw [if_pos (show l ≤ (i : Int) ∧ (i : Int) < r from ⟨by omega, by omega⟩)] at hcnt
        rw [if_pos hcond]
        omega
      · rw [if_neg (show ¬(l ≤ (i : Int) ∧ (i : Int) < r) from
          fun hcon => hcond ⟨by omega, by omega⟩)] at hcnt
        rw [if_neg hcond]
        omega

lemma sysCount_queryAvailable (sys : SeatBookingSystem) (hwf : SysWF sys) (hc : SysCount sys)
    (l r : Int) : SysCount (sys.queryAvailable l r).1 := by
  obtain ⟨hlen, hseatn, hglobn⟩ := hwf
  obtain ⟨hseat, hglob⟩ := hc
  unfold SeatBookingSystem.queryAvailable
  by_cases h2 : l < 0 ∨ (sys.numStations : Int) < r ∨ r ≤ l
  · rw [if_pos h2]
    exact ⟨hseat, hglob⟩
  · rw [if_neg h2]
    constructor
    · intro s hs i hi
      have hs' : s < sys.numSeats := hs
      have hi' : i < sys.numSegments := hi
      show ((availScan l.toNat r.toNat sys.seats 0).1.getD s (SegmentTree.make 0)).eff i =
        (countActiveSeat sys.bookings (s : Int) i : Int)
      rw [availScan_getD, if_pos (by omega)]
      show ((sys.seatTree s).query l.toNat r.toNat).1.eff i = _
      rw [eff_query _ _ _ _ (by rw [hseatn s hs']; exact hi')]
      exact hseat s hs' i hi'
    · intro i hi
      exact hglob i hi

lemma sysCount_isAvailable (sys : SeatBookingSystem) (hwf : SysWF sys) (hc : SysCount sys)
    (seatId l r : Int) : SysCount (sys.isAvailable seatId l r).1 := by
  obtain ⟨hlen, hseatn, hglobn⟩ := hwf
  obtain ⟨hseat, hglob⟩ := hc
  unfold SeatBookingSystem.isAvailable
  by_cases h1 : seatId < 0 ∨ (sys.numSeats : Int) ≤ seatId
  · rw [if_pos h1]
    exact ⟨hseat, hglob⟩
  rw [if_neg h1]
  by_cases h2 : l < 0 ∨ (sys.numStations : Int) < r ∨ r ≤ l
  · rw [if_pos h2]
    exact ⟨hseat, hglob⟩
  · rw [if_neg h2]
    push_neg at h1
    constructor
    · intro s hs i hi
      have hs' : s < sys.numSeats := hs
      have hi' : i < sys.numSegments := hi
      show ((sys.seats.set seatId.toNat _).getD s (SegmentTree.make 0)).eff i =
        (countActiveSeat sys.bookings (s : Int) i : Int)
      by_cases hss : s = seatId.toNat
      · subst hss
        rw [getD_set_self _ _ _ _ (by omega)]
        rw [eff_query _ _ _ _ (by rw [hseatn _ hs']; exact hi')]
        exact hseat _ hs' i hi'
      · rw [getD_set_ne _ _ _ _ _ hss]
        exact hseat s hs' i hi'
    · intro i hi
      exact hglob i hi

lemma sysCount_getSeatStatus (sys : SeatBookingSystem) (hwf : SysWF sys) (hc : SysCount sys)
    (seatId : Int) : SysCount (sys.getSeatStatus seatId).1 := by
  obtain ⟨hlen, hseatn, hglobn⟩ := hwf
  obtain ⟨hseat, hglob⟩ := hc
  unfold SeatBookingSystem.getSeatStatus
  by_cases h1 : seatId < 0 ∨ (sys.numSeats : Int) ≤ seatId
  · rw [if_pos h1]
    exact ⟨hseat, hglob⟩
  rw [if_neg h1]
  push_neg at h1
  by_cases h2 : ((sys.seatTree seatId.toNat).query 0 sys.numSegments).2 = 0
  · rw [if_pos h2]
    refine ⟨fun s hs i hi => ?_, fun i hi => hglob i hi⟩
    have hs' : s < sys.numSeats := hs
    have hi' : i < sys.numSegments := hi
    show ((sys.seats.set seatId.toNat _).getD s (SegmentTree.make 0)).eff i =
      (countActiveSeat sys.bookings (s : Int) i : Int)
    by_cases hss : s = seatId.toNat
    · subst hss
      rw [getD_set_self _ _ _ _ (by omega)]
      rw [eff_query _ _ _ _ (by rw [hseatn _ hs']; exact hi')]
      exact hseat _ hs' i hi'
    · rw [getD_set_ne _ _ _ _ _ hss]
      exact hseat s hs' i hi'
  · rw [if_neg h2]
    refine ⟨fun s hs i hi => ?_, fun i hi => hglob i hi⟩
    have hs' : s < sys.numSeats := hs
    have hi' : i < sys.numSegments := hi
    show ((sys.seats.set seatId.toNat _).getD s (SegmentTree.make 0)).eff i =
      (countActiveSeat sys.bookings (s : Int) i : Int)
    by_cases hss : s = seatId.toNat
    · subst hss
      rw [getD_set_self _ _ _ _ (by omega)]
      have hq : i < ((sys.seatTree seatId.toNat).query 0 sys.numSegments).1.n := by
        rw [query_n, hseatn _ hs']
        exact hi'
      rw [statusScanGo_eff _ _ _ _ hq]
      rw [eff_query _ _ _ _ (by rw [hseatn _ hs']; exact hi')]
      exact hseat _ hs' i hi'
    · rw [getD_set_ne _ _ _ _ _ hss]
      exact hseat s hs' i hi'

/-- In every reachable state the effective leaf values of every seat tree and
of the global tree agree with the occupancy reconstructed from the booking
log. -/
lemma reachable_count {sys : SeatBookingSystem} (h : Reachable sys) : SysCount sys := by
  induction h with
  | init N M => exact sysCount_make N M
  | book h seatId l r ih => exact sysCount_book _ (reachable_wf h) ih seatId l r
  | cancel h seatId l r ih => exact sysCount_cancel _ (reachable_wf h) ih seatId l r
  | queryAvailable h l r ih => exact sysCount_queryAvailable _ (reachable_wf h) ih l r
  | isAvailable h seatId l r ih => exact sysCount_isAvailable _ (reachable_wf h) ih seatId l r
  | getSeatStatus h seatId ih => exact sysCount_getSeatStatus _ (reachable_wf h) ih seatId

/-- C6 (amended): in every reachable state, a single-segment query of the
global tree returns exactly the number of active bookings (over all seats)
covering that segment, and a single-segment query of a seat's tree returns
exactly the number of that seat's active bookings covering the segment.  (The
claim as written — that multi-segment aggregate queries return the maximum
per-segment count — fails on the recombination bug, see
`claim6_counterexample`; the per-segment form is what the code maintains.) -/
theorem claim6_amended_thm (sys : SeatBookingSystem) (hreach : Reachable sys)
    (i : Nat) (hi : i < sys.numSegments) :
    (sys.globalTree.query i (i + 1)).2 = (countActiveAll sys.bookings i : Int) ∧
    (∀ s, s < sys.numSeats →
      ((sys.seatTree s).query i (i + 1)).2 =
        (countActiveSeat sys.bookings (s : Int) i : Int)) := by
  obtain ⟨hlen, hseatn, hglobn⟩ := reachable_wf hreach
  obtain ⟨hseat, hglob⟩ := reachable_count hreach
  constructor
  · rw [query_leaf_val _ i (by rw [hglobn]; exact hi)
      (by rw [hglob i hi]; exact Int.ofNat_nonneg _), hglob i hi]
  · intro s hs
    rw [query_leaf_val _ i (by rw [hseatn s hs]; exact hi)
      (by rw [hseat s hs i hi]; exact Int.ofNat_nonneg _), hseat s hs i hi]

/-- Witness for `claim6_amended_thm`: after one booking on a fresh two-seat,
three-station system, segment `0`'s global count and seat counts are read back
exactly by single-segment queries. -/
theorem claim6_amended_witness :
    ((((SeatBookingSystem.make 2 3).book 0 0 2).1.globalTree.query 0 1).2 =
      (countActiveAll ((SeatBookingSystem.make 2 3).book 0 0 2).1.bookings 0 : Int)) ∧
    (((((SeatBookingSystem.make 2 3).book 0 0 2).1.seatTree 0).query 0 1).2 =
      (countActiveSeat ((SeatBookingSystem.make 2 3).book 0 0 2).1.bookings
        ((0 : Nat) : Int) 0 : Int)) :=
  ⟨(claim6_amended_thm _ (Reachable.book (Reachable.init 2 3) 0 0 2) 0 (by decide)).1,
   (claim6_amended_thm _ (Reachable.book (Reachable.init 2 3) 0 0 2) 0 (by decide)).2 0
     (by decide)⟩

/-! ### The shape of a tree after a single `+1` update of a zero tree

Starting from a fresh system, one successful booking leaves the seat tree in a
rigid shape from which the sign of every later range query can be read off
exactly.  This drives the from-fresh forms of the double-booking claims. -/

/-- Every array entry in the subtree of `v` is zero. -/
def ZeroSub (t : SegmentTree) (v : Nat) : Prop :=
  ∀ u, Desc v u → t.tree u = 0 ∧ t.lazy u = 0

/-- The subtree of `v` (over `[s, e)`) holds a uniform `+1`: the root `tree`
entry is `1`, and on internal nodes the increment is recorded either as a
pending `lazy 1` over a zero subtree, or as `lazy 0` over two covered
children. -/
def Cov : Nat → SegmentTree → Nat → Nat → Nat → Prop
  | 0, _, _, _, _ => True
  | fuel + 1, t, v, s, e =>
    t.tree v = 1 ∧ 0 ≤ t.lazy v ∧
      (¬ e ≤ s + 1 →
        (t.lazy v = 1 ∧ (∀ u, Desc v u → u ≠ v → t.tree u = 0 ∧ t.lazy u = 0)) ∨
        (t.lazy v = 0 ∧ Cov fuel t (2 * v + 1) s ((s + e) / 2) ∧
          Cov fuel t (2 * v + 2) ((s + e) / 2) e))

/-- Shape of the subtree of `v` (over `[s, e)`) after `update(l, r, +1)` hit a
zero subtree: still zero off the range, covered on complete overlap, and on
partial overlap a recombined root (`lazy 0`, `tree ≥ 1`) over two shaped
children. -/
def Shape : Nat → SegmentTree → Nat → Nat → Nat → Nat → Nat → Prop
  | 0, _, _, _, _, _, _ => True
  | fuel + 1, t, l, r, v, s, e =>
    if r ≤ s ∨ e ≤ l then ZeroSub t v
    else if l ≤ s ∧ e ≤ r then Cov (fuel + 1) t v s e
    else t.lazy v = 0 ∧ 1 ≤ t.tree v ∧
      Shape fuel t l r (2 * v + 1) s ((s + e) / 2) ∧
      Shape fuel t l r (2 * v + 2) ((s + e) / 2) e

lemma pushDown_zero_lazy (t : SegmentTree) (v : Nat) (h : t.lazy v = 0) :
    t.pushDown v = t := by
  unfold SegmentTree.pushDown
  rw [if_neg (by simp [h])]

lemma zeroSub_mono {t : SegmentTree} {v u : Nat} (h : ZeroSub t v) (hd : Desc v u) :
    ZeroSub t u := fun w hw => h w (hd.trans hw)

/-- A query of a zero subtree is a pure no-op returning `0`. -/
lemma queryGo_zeroSub (fuel : Nat) : ∀ (t : SegmentTree) (l r v s e : Nat), ZeroSub t v →
    SegmentTree.queryGo fuel t l r v s e = (t, 0) := by
  induction fuel with
  | zero => intro t l r v s e _; rfl
  | succ fuel ih =>
    intro t l r v s e hz
    unfold SegmentTree.queryGo
    split
    · rfl
    · split
      · rw [(hz v (Desc.refl v)).1]
      · rw [pushDown_zero_lazy t v (hz v (Desc.refl v)).2]
        rw [ih t l r (2 * v + 1) s ((s + e) / 2) (zeroSub_mono hz (Desc.child_left v))]
        show ((SegmentTree.queryGo fuel t l r (2 * v + 2) ((s + e) / 2) e).1,
          max 0 (SegmentTree.queryGo fuel t l r (2 * v + 2) ((s + e) / 2) e).2) = (t, 0)
        rw [ih t l r (2 * v + 2) ((s + e) / 2) e (zeroSub_mono hz (Desc.child_right v))]
        simp

/-- A node whose `tree` entry is `1` with a pending `lazy 1` over a zero
subtree is covered. -/
lemma Cov_of_covered (fuel : Nat) (t : SegmentTree) (v s e : Nat)
    (h1 : t.tree v = 1) (h2 : t.lazy v = 1)
    (h3 : ∀ u, Desc v u → u ≠ v → t.tree u = 0 ∧ t.lazy u = 0) : Cov fuel t v s e := by
  cases fuel with
  | zero => trivial
  | succ fuel => exact ⟨h1, by omega, fun _ => Or.inl ⟨h2, h3⟩⟩

/-- `Cov` only reads entries inside the subtree of `v`. -/
lemma Cov_congr (fuel : Nat) : ∀ (t t' : SegmentTree) (v s e : Nat),
    (∀ u, Desc v u → t.tree u = t'.tree u ∧ t.lazy u = t'.lazy u) →
    Cov fuel t v s e → Cov fuel t' v s e := by
  induction fuel with
  | zero => intro t t' v s e _ _; trivial
  | succ fuel ih =>
    intro t t' v s e hag hcov
    obtain ⟨h1, h2, h3⟩ := hcov
    refine ⟨by rw [← (hag v (Desc.refl v)).1]; exact h1,
      by rw [← (hag v (Desc.refl v)).2]; exact h2, fun hleaf => ?_⟩
    rcases h3 hleaf with ⟨hl1, hbelow⟩ | ⟨hl0, hcl, hcr⟩
    · refine Or.inl ⟨by rw [← (hag v (Desc.refl v)).2]; exact hl1, fun u hu hne => ?_⟩
      rw [← (hag u hu).1, ← (hag u hu).2]
      exact hbelow u hu hne
    · exact Or.inr ⟨by rw [← (hag v (Desc.refl v)).2]; exact hl0,
        ih t t' (2 * v + 1) s ((s + e) / 2) (fun u hu => hag u (Desc.left hu)) hcl,
        ih t t' (2 * v + 2) ((s + e) / 2) e (fun u hu => hag u (Desc.right hu)) hcr⟩

/-- `Shape` only reads entries inside the subtree of `v`. -/
lemma Shape_congr (fuel : Nat) : ∀ (t t' : SegmentTree) (l r v s e : Nat),
    (∀ u, Desc v u → t.tree u = t'.tree u ∧ t.lazy u = t'.lazy u) →
    Shape fuel t l r v s e → Shape fuel t' l r v s e := by
  induction fuel with
  | zero => intro t t' l r v s e _ _; trivial
  | succ fuel ih =>
    intro t t' l r v s e hag hsh
    unfold Shape at hsh ⊢
    by_cases hov : r ≤ s ∨ e ≤ l
    · rw [if_pos hov] at hsh ⊢
      intro u hu
      rw [← (hag u hu).1, ← (hag u hu).2]
      exact hsh u hu
    · rw [if_neg hov] at hsh ⊢
      by_cases hcomp : l ≤ s ∧ e ≤ r
      · rw [if_pos hcomp] at hsh ⊢
        exact Cov_congr (fuel + 1) t t' v s e hag hsh
      · rw [if_neg hcomp] at hsh ⊢
        obtain ⟨ha, hb, hcl, hcr⟩ := hsh
        exact ⟨by rw [← (hag v (Desc.refl v)).2]; exact ha,
          by rw [← (hag v (Desc.refl v)).1]; exact hb,
          ih t t' l r (2 * v + 1) s ((s + e) / 2) (fun u hu => hag u (Desc.left hu)) hcl,
          ih t t' l r (2 * v + 2) ((s + e) / 2) e (fun u hu => hag u (Desc.right hu)) hcr⟩

/-- The root reading `tree + lazy` of a shaped subtree is `0` off the update
range and at least `1` on it. -/
lemma Shape_root_val (fuel : Nat) (hfuel : 1 ≤ fuel) (t : SegmentTree) (l r v s e : Nat)
    (h : Shape fuel t l r v s e) :
    (if r ≤ s ∨ e ≤ l then t.tree v + t.lazy v = 0 else 1 ≤ t.tree v + t.lazy v) := by
  obtain ⟨fuel, rfl⟩ : ∃ f, fuel = f + 1 := ⟨fuel - 1, by omega⟩
  unfold Shape at h
  by_cases hov : r ≤ s ∨ e ≤ l
  · rw [if_pos hov] at h ⊢
    have := h v (Desc.refl v)
    omega
  · rw [if_neg hov] at h ⊢
    by_cases hcomp : l ≤ s ∧ e ≤ r
    · rw [if_pos hcomp] at h
      obtain ⟨h1, h2, _⟩ := h
      omega
    · rw [if_neg hcomp] at h
      obtain ⟨h1, h2, _, _⟩ := h
      omega

/-- One `+1` update of a zero subtree produces a shaped subtree. -/
lemma updateGo_shape (fuel : Nat) : ∀ (t : SegmentTree) (l r v s e : Nat),
    e - s < fuel → l < r → ZeroSub t v →
    Shape fuel (SegmentTree.updateGo fuel t l r 1 v s e) l r v s e := by
  induction fuel with
  | zero => intro t l r v s e hf _ _; omega
  | succ fuel ih =>
    intro t l r v s e hf hlr hz
    unfold SegmentTree.updateGo Shape
    by_cases hov : r ≤ s ∨ e ≤ l
    · rw [if_pos hov, if_pos hov]
      exact hz
    · rw [if_neg hov, if_neg hov]
      by_cases hcomp : l ≤ s ∧ e ≤ r
      · rw [if_pos hcomp, if_pos hcomp]
        refine Cov_of_covered (fuel + 1) _ v s e ?_ ?_ ?_
        · simp [writeFn, (hz v (Desc.refl v)).1]
        · simp [writeFn, (hz v (Desc.refl v)).2]
        · intro u hu hne
          exact ⟨by simp [writeFn, hne, (hz u hu).1], by simp [writeFn, hne, (hz u hu).2]⟩
      · rw [if_neg hcomp, if_neg hcomp]
        have hlz : t.lazy v = 0 := (hz v (Desc.refl v)).2
        rw [pushDown_zero_lazy t v hlz]
        have hes : s + 2 ≤ e := by omega
        have hfl : (s + e) / 2 - s < fuel := by omega
        have hfr : e - (s + e) / 2 < fuel := by omega
        have hzl : ZeroSub t (2 * v + 1) := zeroSub_mono hz (Desc.child_left v)
        have hzr : ZeroSub t (2 * v + 2) := zeroSub_mono hz (Desc.child_right v)
        have hSl := ih t l r (2 * v + 1) s ((s + e) / 2) hfl hlr hzl
        have hzr1 : ZeroSub (SegmentTree.updateGo fuel t l r 1 (2 * v + 1) s ((s + e) / 2))
            (2 * v + 2) := by
          intro u hu
          have hnd : ¬ Desc (2 * v + 1) u := fun hd => Desc.children_disjoint hd hu
          have ho := updateGo_outside fuel t l r 1 (2 * v + 1) s ((s + e) / 2) u hnd
          rw [ho.1, ho.2]
          exact hzr u hu
        have hSr := ih (SegmentTree.updateGo fuel t l r 1 (2 * v + 1) s ((s + e) / 2))
          l r (2 * v + 2) ((s + e) / 2) e hfr hlr hzr1
        generalize ht1 : SegmentTree.updateGo fuel t l r 1 (2 * v + 1) s ((s + e) / 2) = t1
          at hSl hSr ⊢
        generalize ht2 : SegmentTree.updateGo fuel t1 l r 1 (2 * v + 2) ((s + e) / 2) e = t2
          at hSr ⊢
        have hvl : t1.lazy v = 0 := by
          have h := updateGo_outside fuel t l r 1 (2 * v + 1) s ((s + e) / 2) v
            (not_desc_left_self v)
          rw [ht1] at h
          rw [h.2, hlz]
        have hvl2 : t2.lazy v = 0 := by
          have h := updateGo_outside fuel t1 l r 1 (2 * v + 2) ((s + e) / 2) e v
            (not_desc_right_self v)
          rw [ht2] at h
          rw [h.2, hvl]
        have hag12 : ∀ u, Desc (2 * v + 1) u →
            t1.tree u = t2.tree u ∧ t1.lazy u = t2.lazy u := by
          intro u hu
          have h := updateGo_outside fuel t1 l r 1 (2 * v + 2) ((s + e) / 2) e u
            (fun hd => Desc.children_disjoint hu hd)
          rw [ht2] at h
          exact ⟨h.1.symm, h.2.symm⟩
        have hSl2 : Shape fuel t2 l r (2 * v + 1) s ((s + e) / 2) :=
          Shape_congr fuel t1 t2 l r (2 * v + 1) s ((s + e) / 2) hag12 hSl
        have hvall := Shape_root_val fuel (by omega) t2 l r (2 * v + 1) s ((s + e) / 2) hSl2
        have hvalr := Shape_root_val fuel (by omega) t2 l r (2 * v + 2) ((s + e) / 2) e hSr
        have htv : (t2.pullUp v).tree v =
            max (t2.tree (2 * v + 1) + t2.lazy (2 * v + 1))
              (t2.tree (2 * v + 2) + t2.lazy (2 * v + 2)) := by
          simp [SegmentTree.pullUp, writeFn]
        refine ⟨?_, ?_, ?_, ?_⟩
        · rw [pullUp_lazy, hvl2]
        · rw [htv]
          by_cases hovl : r ≤ s ∨ (s + e) / 2 ≤ l
          · rw [if_pos hovl] at hvall
            have hnovr : ¬(r ≤ (s + e) / 2 ∨ e ≤ l) := by omega
            rw [if_neg hnovr] at hvalr
            exact le_trans hvalr (le_max_right _ _)
          · rw [if_neg hovl] at hvall
            exact le_trans hvall (le_max_left _ _)
        · refine Shape_congr fuel t2 (t2.pullUp v) l r (2 * v + 1) s ((s + e) / 2) ?_ hSl2
          intro u hu
          have hne : u ≠ v := by have := hu.le; omega
          exact ⟨(pullUp_tree_ne t2 v u hne).symm, (pullUp_lazy t2 v u).symm⟩
        · refine Shape_congr fuel t2 (t2.pullUp v) l r (2 * v + 2) ((s + e) / 2) e ?_ hSr
          intro u hu
          have hne : u ≠ v := by have := hu.le; omega
          exact ⟨(pullUp_tree_ne t2 v u hne).symm, (pullUp_lazy t2 v u).symm⟩

/-- Pushing a pending cover of `v` down makes both children covered. -/
lemma pushDown_cov_children (fuel : Nat) (t : SegmentTree) (v s e : Nat)
    (hl1 : t.lazy v = 1)
    (hbelow : ∀ u, Desc v u → u ≠ v → t.tree u = 0 ∧ t.lazy u = 0) :
    Cov fuel (t.pushDown v) (2 * v + 1) s ((s + e) / 2) ∧
    Cov fuel (t.pushDown v) (2 * v + 2) ((s + e) / 2) e := by
  have hbl := hbelow (2 * v + 1) (Desc.child_left v) (by omega)
  have hbr := hbelow (2 * v + 2) (Desc.child_right v) (by omega)
  constructor
  · refine Cov_of_covered fuel _ _ _ _ ?_ ?_ ?_
    · rw [pushDown_tree_left, hbl.1, hl1, zero_add]
    · rw [pushDown_lazy_left, hbl.2, hl1, zero_add]
    · intro u hu hne
      have hnev : u ≠ v := by have := hu.le; omega
      have hnerc : u ≠ 2 * v + 2 :=
        fun heq => Desc.children_disjoint hu (heq ▸ Desc.refl (2 * v + 2))
      have hp := pushDown_outside t v u hnev hne hnerc
      rw [hp.1, hp.2]
      exact hbelow u (Desc.left hu) hnev
  · refine Cov_of_covered fuel _ _ _ _ ?_ ?_ ?_
    · rw [pushDown_tree_right, hbr.1, hl1, zero_add]
    · rw [pushDown_lazy_right, hbr.2, hl1, zero_add]
    · intro u hu hne
      have hnev : u ≠ v := by have := hu.le; omega
      have hnelc : u ≠ 2 * v + 1 :=
        fun heq => Desc.children_disjoint (heq ▸ Desc.refl (2 * v + 1)) hu
      have hp := pushDown_outside t v u hnev hnelc hne
      rw [hp.1, hp.2]
      exact hbelow u (Desc.right hu) hnev

/-- A query of a covered subtree returns a positive maximum exactly when the
query range meets the subtree's interval. -/
lemma queryGo_cov (fuel : Nat) : ∀ (t : SegmentTree) (l2 r2 v s e : Nat),
    e - s < fuel → s < e → Cov fuel t v s e →
    (if max s l2 < min e r2 then 1 ≤ (SegmentTree.queryGo fuel t l2 r2 v s e).2
     else (SegmentTree.queryGo fuel t l2 r2 v s e).2 = 0) := by
  induction fuel with
  | zero => intro t l2 r2 v s e hf _ _; omega
  | succ fuel ih =>
    intro t l2 r2 v s e hf hse hcov
    obtain ⟨h1, h2, h3⟩ := hcov
    unfold SegmentTree.queryGo
    by_cases hov : r2 ≤ s ∨ e ≤ l2
    · rw [if_pos hov, if_neg (show ¬ max s l2 < min e r2 by omega)]
    · rw [if_neg hov]
      by_cases hcomp : l2 ≤ s ∧ e ≤ r2
      · rw [if_pos hcomp, if_pos (show max s l2 < min e r2 by omega), h1]
      · rw [if_neg hcomp]
        have hes2 : s + 2 ≤ e := by omega
        have hleaf : ¬ e ≤ s + 1 := by omega
        have hfl : (s + e) / 2 - s < fuel := by omega
        have hfr : e - (s + e) / 2 < fuel := by omega
        rcases h3 hleaf with ⟨hl1, hbelow⟩ | ⟨hl0, hcl, hcr⟩
        · obtain ⟨hcovl, hcovr⟩ := pushDown_cov_children fuel t v s e hl1 hbelow
          have hL := ih (t.pushDown v) l2 r2 (2 * v + 1) s ((s + e) / 2) hfl (by omega) hcovl
          have hcovr2 : Cov fuel (SegmentTree.queryGo fuel (t.pushDown v) l2 r2 (2 * v + 1)
              s ((s + e) / 2)).1 (2 * v + 2) ((s + e) / 2) e := by
            refine Cov_congr fuel (t.pushDown v) _ (2 * v + 2) ((s + e) / 2) e ?_ hcovr
            intro u hu
            have h := queryGo_outside fuel (t.pushDown v) l2 r2 (2 * v + 1) s ((s + e) / 2) u
              (fun hd => Desc.children_disjoint hd hu)
            exact ⟨h.1.symm, h.2.symm⟩
          have hR := ih _ l2 r2 (2 * v + 2) ((s + e) / 2) e hfr (by omega) hcovr2
          by_cases hcl2 : max s l2 < min ((s + e) / 2) r2
          · rw [if_pos hcl2] at hL
            rw [if_pos (show max s l2 < min e r2 by omega)]
            exact le_trans hL (le_max_left _ _)
          · rw [if_neg hcl2] at hL
            by_cases hcr2 : max ((s + e) / 2) l2 < min e r2
            · rw [if_pos hcr2] at hR
              rw [if_pos (show max s l2 < min e r2 by omega)]
              exact le_trans hR (le_max_right _ _)
            · rw [if_neg hcr2] at hR
              rw [if_neg (show ¬ max s l2 < min e r2 by omega)]
              rw [hL, hR]
              simp
        · rw [pushDown_zero_lazy t v hl0]
          have hL := ih t l2 r2 (2 * v + 1) s ((s + e) / 2) hfl (by omega) hcl
          have hcovr2 : Cov fuel (SegmentTree.queryGo fuel t l2 r2 (2 * v + 1)
              s ((s + e) / 2)).1 (2 * v + 2) ((s + e) / 2) e := by
            refine Cov_congr fuel t _ (2 * v + 2) ((s + e) / 2) e ?_ hcr
            intro u hu
            have h := queryGo_outside fuel t l2 r2 (2 * v + 1) s ((s + e) / 2) u
              (fun hd => Desc.children_disjoint hd hu)
            exact ⟨h.1.symm, h.2.symm⟩
          have hR := ih _ l2 r2 (2 * v + 2) ((s + e) / 2) e hfr (by omega) hcovr2
          by_cases hcl2 : max s l2 < min ((s + e) / 2) r2
          · rw [if_pos hcl2] at hL
            rw [if_pos (show max s l2 < min e r2 by omega)]
            exact le_trans hL (le_max_left _ _)
          · rw [if_neg hcl2] at hL
            by_cases hcr2 : max ((s + e) / 2) l2 < min e r2
            · rw [if_pos hcr2] at hR
              rw [if_pos (show max s l2 < min e r2 by omega)]
              exact le_trans hR (le_max_right _ _)
            · rw [if_neg hcr2] at hR
              rw [if_neg (show ¬ max s l2 < min e r2 by omega)]
              rw [hL, hR]
              simp

/-- The sign of a range query of a shaped subtree: the returned maximum is
positive exactly when the query range meets both the update range and the
subtree's interval, and zero otherwise. -/
lemma queryGo_shape (fuel : Nat) : ∀ (t : SegmentTree) (l1 r1 l2 r2 v s e : Nat),
    e - s < fuel → s < e → l1 < r1 → Shape fuel t l1 r1 v s e →
    (if max s (max l1 l2) < min e (min r1 r2) then
       1 ≤ (SegmentTree.queryGo fuel t l2 r2 v s e).2
     else (SegmentTree.queryGo fuel t l2 r2 v s e).2 = 0) := by
  induction fuel with
  | zero => intro t l1 r1 l2 r2 v s e hf _ _ _; omega
  | succ fuel ih =>
    intro t l1 r1 l2 r2 v s e hf hse hl1r1 hsh
    unfold Shape at hsh
    by_cases hov1 : r1 ≤ s ∨ e ≤ l1
    · rw [if_pos hov1] at hsh
      rw [queryGo_zeroSub (fuel + 1) t l2 r2 v s e hsh,
        if_neg (show ¬ max s (max l1 l2) < min e (min r1 r2) by omega)]
    · rw [if_neg hov1] at hsh
      by_cases hcomp1 : l1 ≤ s ∧ e ≤ r1
      · rw [if_pos hcomp1] at hsh
        have hqc := queryGo_cov (fuel + 1) t l2 r2 v s e hf hse hsh
        by_cases hc : max s l2 < min e r2
        · rw [if_pos hc] at hqc
          rw [if_pos (show max s (max l1 l2) < min e (min r1 r2) by omega)]
          exact hqc
        · rw [if_neg hc] at hqc
          rw [if_neg (show ¬ max s (max l1 l2) < min e (min r1 r2) by omega)]
          exact hqc
      · rw [if_neg hcomp1] at hsh
        obtain ⟨hlz, htv, hshl, hshr⟩ := hsh
        unfold SegmentTree.queryGo
        by_cases hov2 : r2 ≤ s ∨ e ≤ l2
        · rw [if_pos hov2,
            if_neg (show ¬ max s (max l1 l2) < min e (min r1 r2) by omega)]
        · rw [if_neg hov2]
          by_cases hcomp2 : l2 ≤ s ∧ e ≤ r2
          · rw [if_pos hcomp2,
              if_pos (show max s (max l1 l2) < min e (min r1 r2) by omega)]
            exact htv
          · rw [if_neg hcomp2]
            rw [pushDown_zero_lazy t v hlz]
            have hes2 : s + 2 ≤ e := by omega
            have hfl : (s + e) / 2 - s < fuel := by omega
            have hfr : e - (s + e) / 2 < fuel := by omega
            have hL := ih t l1 r1 l2 r2 (2 * v + 1) s ((s + e) / 2) hfl (by omega) hl1r1 hshl
            have hshr2 : Shape fuel (SegmentTree.queryGo fuel t l2 r2 (2 * v + 1) s
                ((s + e) / 2)).1 l1 r1 (2 * v + 2) ((s + e) / 2) e := by
              refine Shape_congr fuel t _ l1 r1 (2 * v + 2) ((s + e) / 2) e ?_ hshr
              intro u hu
              have h := queryGo_outside fuel t l2 r2 (2 * v + 1) s ((s + e) / 2) u
                (fun hd => Desc.children_disjoint hd hu)
              exact ⟨h.1.symm, h.2.symm⟩
            have hR := ih _ l1 r1 l2 r2 (2 * v + 2) ((s + e) / 2) e hfr (by omega) hl1r1 hshr2
            by_cases hcl2 : max s (max l1 l2) < min ((s + e) / 2) (min r1 r2)
            · rw [if_pos hcl2] at hL
              rw [if_pos (show max s (max l1 l2) < min e (min r1 r2) by omega)]
              exact le_trans hL (le_max_left _ _)
            · rw [if_neg hcl2] at hL
              by_cases hcr2 : max ((s + e) / 2) (max l1 l2) < min e (min r1 r2)
              · rw [if_pos hcr2] at hR
                rw [if_pos (show max s (max l1 l2) < min e (min r1 r2) by omega)]
                exact le_trans hR (le_max_right _ _)
              · rw [if_neg hcr2] at hR
                rw [if_neg (show ¬ max s (max l1 l2) < min e (min r1 r2) by omega)]
                rw [hL, hR]
                simp

lemma zeroSub_make (n v : Nat) : ZeroSub (SegmentTree.make n) v := fun u _ => ⟨rfl, rfl⟩

/-- A range query of a fresh tree is a pure no-op returning `0`. -/
lemma query_make (n l r : Nat) :
    (SegmentTree.make n).query l r = (SegmentTree.make n, 0) := by
  unfold SegmentTree.query
  exact queryGo_zeroSub _ _ _ _ _ _ _ (zeroSub_make n 0)

/-- Root form of the shape analysis: after a single `+1` update of a fresh
tree, a range query returns a positive maximum exactly when the two ranges
meet inside `[0, n)`. -/
lemma query_update_make (n l1 r1 l2 r2 : Nat) (hl1 : l1 < r1) (hn : 0 < n) :
    (if max 0 (max l1 l2) < min n (min r1 r2) then
       1 ≤ (((SegmentTree.make n).update l1 r1 1).query l2 r2).2
     else (((SegmentTree.make n).update l1 r1 1).query l2 r2).2 = 0) := by
  have hsh : Shape (n + 1) ((SegmentTree.make n).update l1 r1 1) l1 r1 0 0 n := by
    unfold SegmentTree.update
    exact updateGo_shape (n + 1) (SegmentTree.make n) l1 r1 0 0 n (by omega) hl1
      (zeroSub_make n 0)
  unfold SegmentTree.query
  rw [update_n]
  exact queryGo_shape (n + 1) ((SegmentTree.make n).update l1 r1 1) l1 r1 l2 r2 0 0 n
    (by omega) hn hl1 hsh

lemma make_seatTree (N M s : Nat) (hs : s < N) :
    (SeatBookingSystem.make N M).seatTree s = SegmentTree.make (M - 1) := by
  show (List.replicate N (SegmentTree.make (M - 1))).getD s (SegmentTree.make 0) = _
  exact getD_replicate N s _ _ hs

/-- The state after one successful booking on a fresh system, written out. -/
def freshBooked (N M s l r : Nat) : SeatBookingSystem :=
  { numSeats := N
    numStations := M
    numSegments := M - 1
    seats := (List.replicate N (SegmentTree.make (M - 1))).set s
      ((SegmentTree.make (M - 1)).update l r 1)
    globalTree := (SegmentTree.make (M - 1)).update l r 1
    bookings :=
      [{ id := 1, seatId := (s : Int), from_ := (l : Int), to_ := (r : Int),
         active := true }]
    operationCount := 1 }

/-- On a fresh system a booking with valid inputs succeeds and produces
exactly the `freshBooked` state. -/
lemma book_fresh (N M s l r : Nat) (hs : s < N) (hlr : l < r) (hrM : r ≤ M - 1) :
    (SeatBookingSystem.make N M).book (s : Int) (l : Int) (r : Int) =
      (freshBooked N M s l r, .booked 1) := by
  have hM : 2 ≤ M := by omega
  have hs' : ((s : Int)).toNat = s := by omega
  have hl' : ((l : Int)).toNat = l := by omega
  have hr' : ((r : Int)).toNat = r := by omega
  rw [book_success_state (SeatBookingSystem.make N M) (s : Int) (l : Int) (r : Int)
    (by show ¬((s : Int) < 0 ∨ (N : Int) ≤ (s : Int)); omega)
    (by show ¬((l : Int) < 0 ∨ (M : Int) < (r : Int) ∨ (r : Int) ≤ (l : Int)); omega)
    (by rw [hs', hl', hr', make_seatTree N M s hs, query_make]
        show ¬((0 : Int) < 0)
        omega)]
  rw [hs', hl', hr', make_seatTree N M s hs, query_make]
  rfl

lemma freshBooked_seatTree (N M s l r : Nat) (hs : s < N) :
    (freshBooked N M s l r).seatTree s = (SegmentTree.make (M - 1)).update l r 1 := by
  show ((List.replicate N (SegmentTree.make (M - 1))).set s
    ((SegmentTree.make (M - 1)).update l r 1)).getD s (SegmentTree.make 0) = _
  exact getD_set_self _ _ _ _ (by rw [List.length_replicate]; exact hs)

/-- The value `isAvailable` reports on validated inputs. -/
lemma isAvailable_val (sys : SeatBookingSystem) (seatId l r : Int)
    (h1 : ¬(seatId < 0 ∨ (sys.numSeats : Int) ≤ seatId))
    (h2 : ¬(l < 0 ∨ (sys.numStations : Int) < r ∨ r ≤ l)) :
    (sys.isAvailable seatId l r).2 =
      (((sys.seatTree seatId.toNat).query l.toNat r.toNat).2 == 0) := by
  unfold SeatBookingSystem.isAvailable
  rw [if_neg h1, if_neg h2]

/-- C8 (amended): on a fresh system a booking of `[l, r)` succeeds, and
afterwards `isAvailable` reports `false` on every sub-range `[l2, r2)` of the
booked range.  (In general reachable states the claim fails — see
`claim8_counterexample` — because the buggy recombination can make a booked
range read as free; starting from a fresh state the shape analysis shows the
query is positive.) -/
theorem claim8_amended_thm (N M s l r l2 r2 : Nat) (hs : s < N) (hll : l ≤ l2)
    (hlr2 : l2 < r2) (hrr : r2 ≤ r) (hrM : r ≤ M - 1) :
    (((SeatBookingSystem.make N M).book (s : Int) (l : Int) (r : Int)).2 =
      .booked 1) ∧
    ((((SeatBookingSystem.make N M).book (s : Int) (l : Int) (r : Int)).1.isAvailable
      (s : Int) (l2 : Int) (r2 : Int)).2 = false) := by
  have hlr : l < r := by omega
  have hM : 2 ≤ M := by omega
  rw [book_fresh N M s l r hs hlr hrM]
  refine ⟨rfl, ?_⟩
  show ((freshBooked N M s l r).isAvailable (s : Int) (l2 : Int) (r2 : Int)).2 = false
  rw [isAvailable_val (freshBooked N M s l r) (s : Int) (l2 : Int) (r2 : Int)
    (by show ¬((s : Int) < 0 ∨ (N : Int) ≤ (s : Int)); omega)
    (by show ¬((l2 : Int) < 0 ∨ (M : Int) < (r2 : Int) ∨ (r2 : Int) ≤ (l2 : Int)); omega)]
  rw [(show ((s : Int)).toNat = s by omega), (show ((l2 : Int)).toNat = l2 by omega),
    (show ((r2 : Int)).toNat = r2 by omega), freshBooked_seatTree N M s l r hs]
  have hq := query_update_make (M - 1) l r l2 r2 hlr (by omega)
  rw [if_pos (by omega : max 0 (max l l2) < min (M - 1) (min r r2))] at hq
  rw [beq_eq_false_iff_ne]
  omega

/-- Witness for `claim8_amended_thm`: one seat, five stations, booking
`[1, 3)`; the sub-range `[2, 3)` then reads unavailable. -/
theorem claim8_amended_witness :
    (((SeatBookingSystem.make 1 5).book 0 1 3).2 = .booked 1) ∧
    ((((SeatBookingSystem.make 1 5).book 0 1 3).1.isAvailable 0 2 3).2 = false) :=
  claim8_amended_thm 1 5 0 1 3 2 3 (by decide) (by decide) (by decide) (by decide)
    (by decide)

/-- C2 (amended): on a fresh system the first booking succeeds; a second
booking of the same seat succeeds when its range is disjoint from the first
and is rejected as a conflict listing the first booking's range when the two
ranges overlap, leaving the log unchanged.  (The claim's general form — for an
arbitrary prior state — fails, see `claim2_counterexample`.) -/
theorem claim2_amended_thm (N M s l1 r1 l2 r2 : Nat) (hs : s < N)
    (h1 : l1 < r1) (hr1 : r1 ≤ M - 1) (h2 : l2 < r2) (hr2 : r2 ≤ M - 1) :
    ((SeatBookingSystem.make N M).book (s : Int) (l1 : Int) (r1 : Int)).2 = .booked 1 ∧
    ((r1 ≤ l2 ∨ r2 ≤ l1) →
      (((SeatBookingSystem.make N M).book (s : Int) (l1 : Int) (r1 : Int)).1.book
        (s : Int) (l2 : Int) (r2 : Int)).2 = .booked 2) ∧
    ((l1 < r2 ∧ l2 < r1) →
      (((SeatBookingSystem.make N M).book (s : Int) (l1 : Int) (r1 : Int)).1.book
        (s : Int) (l2 : Int) (r2 : Int)).2 = .conflict [((l1 : Int), (r1 : Int))] ∧
      (((SeatBookingSystem.make N M).book (s : Int) (l1 : Int) (r1 : Int)).1.book
        (s : Int) (l2 : Int) (r2 : Int)).1.bookings =
        ((SeatBookingSystem.make N M).book (s : Int) (l1 : Int) (r1 : Int)).1.bookings) := by
  have hM : 2 ≤ M := by omega
  rw [book_fresh N M s l1 r1 hs h1 hr1]
  refine ⟨rfl, fun hdis => ?_, fun hov => ?_⟩
  · have hq := query_update_make (M - 1) l1 r1 l2 r2 h1 (by omega)
    rw [if_neg (by omega : ¬ max 0 (max l1 l2) < min (M - 1) (min r1 r2))] at hq
    have hq3 : ¬(0 < (((freshBooked N M s l1 r1).seatTree ((s : Int)).toNat).query
        ((l2 : Int)).toNat ((r2 : Int)).toNat).2) := by
      rw [(show ((s : Int)).toNat = s by omega), (show ((l2 : Int)).toNat = l2 by omega),
        (show ((r2 : Int)).toNat = r2 by omega), freshBooked_seatTree N M s l1 r1 hs, hq]
      omega
    show ((freshBooked N M s l1 r1).book (s : Int) (l2 : Int) (r2 : Int)).2 = .booked 2
    rw [book_success_state (freshBooked N M s l1 r1) (s : Int) (l2 : Int) (r2 : Int)
      (by show ¬((s : Int) < 0 ∨ (N : Int) ≤ (s : Int)); omega)
      (by show ¬((l2 : Int) < 0 ∨ (M : Int) < (r2 : Int) ∨ (r2 : Int) ≤ (l2 : Int)); omega)
      hq3]
    rfl
  · have hq := query_update_make (M - 1) l1 r1 l2 r2 h1 (by omega)
    rw [if_pos (by omega : max 0 (max l1 l2) < min (M - 1) (min r1 r2))] at hq
    have hq3 : 0 < (((freshBooked N M s l1 r1).seatTree ((s : Int)).toNat).query
        ((l2 : Int)).toNat ((r2 : Int)).toNat).2 := by
      rw [(show ((s : Int)).toNat = s by omega), (show ((l2 : Int)).toNat = l2 by omega),
        (show ((r2 : Int)).toNat = r2 by omega), freshBooked_seatTree N M s l1 r1 hs]
      omega
    have hcs := book_conflict_state (freshBooked N M s l1 r1) (s : Int) (l2 : Int)
      (r2 : Int)
      (by show ¬((s : Int) < 0 ∨ (N : Int) ≤ (s : Int)); omega)
      (by show ¬((l2 : Int) < 0 ∨ (M : Int) < (r2 : Int) ∨ (r2 : Int) ≤ (l2 : Int)); omega)
      hq3
    constructor
    · show ((freshBooked N M s l1 r1).book (s : Int) (l2 : Int) (r2 : Int)).2 = _
      rw [hcs]
      have hom : overlapMatch (s : Int) (l2 : Int) (r2 : Int)
          { id := 1, seatId := (s : Int), from_ := (l1 : Int), to_ := (r1 : Int),
            active := true } = true := by
        unfold overlapMatch
        simp only [beq_self_eq_true, Bool.true_and, Bool.and_eq_true, decide_eq_true_eq]
        constructor <;> [skip; omega]
        omega
      show BookResult.conflict ((List.filter (overlapMatch (s : Int) (l2 : Int) (r2 : Int))
        [{ id := 1, seatId := (s : Int), from_ := (l1 : Int), to_ := (r1 : Int),
           active := true }]).map (fun b => (b.from_, b.to_))) = _
      rw [List.filter_cons, if_pos hom]
      rfl
    · show ((freshBooked N M s l1 r1).book (s : Int) (l2 : Int) (r2 : Int)).1.bookings =
        (freshBooked N M s l1 r1).bookings
      rw [hcs]

/-- Witness for `claim2_amended_thm`: one seat, five stations; after booking
`[0, 2)` the disjoint `[2, 4)` books as id `2`, and (separately) the
overlapping `[1, 3)` is rejected with the first range listed and the log
unchanged. -/
theorem claim2_amended_witness :
    (((SeatBookingSystem.make 1 5).book 0 0 2).2 = .booked 1 ∧
      ((((SeatBookingSystem.make 1 5).book 0 0 2).1.book 0 2 4).2 = .booked 2)) ∧
    ((((SeatBookingSystem.make 1 5).book 0 0 2).1.book 0 1 3).2 =
        .conflict [(0, 2)] ∧
      (((SeatBookingSystem.make 1 5).book 0 0 2).1.book 0 1 3).1.bookings =
        ((SeatBookingSystem.make 1 5).book 0 0 2).1.bookings) :=
  ⟨⟨(claim2_amended_thm 1 5 0 0 2 2 4 (by decide) (by decide) (by decide) (by decide)
      (by decide)).1,
    (claim2_amended_thm 1 5 0 0 2 2 4 (by decide) (by decide) (by decide) (by decide)
      (by decide)).2.1 (Or.inl (by decide))⟩,
   (claim2_amended_thm 1 5 0 0 2 1 3 (by decide) (by decide) (by decide) (by decide)
      (by decide)).2.2 ⟨by decide, by decide⟩⟩

/-- Depth invariant for the heap indexing: every index the recursion touches
below a node `v` at depth `d` (so `v + 1 < 2^(d+1)`), whose interval length
fits `2^d * (len - 1) < n`, with `2^d ≤ 2n`, stays below `4n`. -/
lemma touchedGo_bound (n fuel : Nat) : ∀ l r v s e d,
    v + 1 < 2 ^ (d + 1) → 2 ^ d * (e - s - 1) < n → 2 ^ d ≤ 2 * n → s < e →
    ∀ j, j ∈ SegmentTree.touchedGo fuel l r v s e → j < 4 * n := by
  induction fuel with
  | zero => intro l r v s e d _ _ _ _ j hj; simp [SegmentTree.touchedGo] at hj
  | succ fuel ih =>
    intro l r v s e d hA hB hC hse j hj
    unfold SegmentTree.touchedGo at hj
    by_cases hov : r ≤ s ∨ e ≤ l
    · rw [if_pos hov] at hj
      simp at hj
    · rw [if_neg hov] at hj
      have h2d : (2 : Nat) ^ (d + 1) = 2 * 2 ^ d := by ring
      by_cases hcomp : l ≤ s ∧ e ≤ r
      · rw [if_pos hcomp] at hj
        simp only [List.mem_singleton] at hj
        omega
      · rw [if_neg hcomp] at hj
        have hes : s + 2 ≤ e := by omega
        have hlen : 1 ≤ e - s - 1 := by omega
        have hBd : 2 ^ d * 1 ≤ 2 ^ d * (e - s - 1) := Nat.mul_le_mul_left _ hlen
        have hA' : 2 * v + 2 + 1 < 2 ^ (d + 1 + 1) := by
          have : (2 : Nat) ^ (d + 1 + 1) = 2 * 2 ^ (d + 1) := by ring
          omega
        have hC' : 2 ^ (d + 1) ≤ 2 * n := by omega
        have hBl : 2 ^ (d + 1) * ((s + e) / 2 - s - 1) < n := by
          have he1 : 2 * ((s + e) / 2 - s - 1) ≤ e - s - 1 := by omega
          have he2 : 2 ^ (d + 1) * ((s + e) / 2 - s - 1) =
              2 ^ d * (2 * ((s + e) / 2 - s - 1)) := by ring
          have he3 : 2 ^ d * (2 * ((s + e) / 2 - s - 1)) ≤ 2 ^ d * (e - s - 1) :=
            Nat.mul_le_mul_left _ he1
          omega
        have hBr : 2 ^ (d + 1) * (e - (s + e) / 2 - 1) < n := by
          have he1 : 2 * (e - (s + e) / 2 - 1) ≤ e - s - 1 := by omega
          have he2 : 2 ^ (d + 1) * (e - (s + e) / 2 - 1) =
              2 ^ d * (2 * (e - (s + e) / 2 - 1)) := by ring
          have he3 : 2 ^ d * (2 * (e - (s + e) / 2 - 1)) ≤ 2 ^ d * (e - s - 1) :=
            Nat.mul_le_mul_left _ he1
          omega
        simp only [List.mem_cons, List.mem_append] at hj
        rcases hj with rfl | rfl | rfl | hj | hj
        · omega
        · omega
        · omega
        · exact ih l r (2 * v + 1) s ((s + e) / 2) (d + 1) (by omega) hBl hC'
            (by omega) j hj
        · exact ih l r (2 * v + 2) ((s + e) / 2) e (d + 1) hA' hBr hC' (by omega) j hj

/-- C9: for valid ranges `0 ≤ l < r ≤ n` every array index touched by a root
`update`/`query` call — through every recursive descent, `pushDown` of
children and recombination — lies in `[0, 4n)`, so the `4n`-element arrays
allocated by the constructor are never accessed out of bounds; and on a
zero-segment tree `update` and `query` are no-ops (identity state, query
answer `0`). -/
theorem claim9_thm (n l r : Nat) (hlr : l < r) (hrn : r ≤ n) :
    (∀ j ∈ SegmentTree.touched n l r, j < 4 * n) ∧
    (∀ (t : SegmentTree) (l2 r2 : Nat) (val : Int), t.n = 0 →
      t.update l2 r2 val = t ∧ t.query l2 r2 = (t, 0)) := by
  constructor
  · intro j hj
    refine touchedGo_bound n (n + 1) l r 0 0 n 0 (by norm_num) ?_ ?_ (by omega) j hj
    · simp only [pow_zero, one_mul]
      omega
    · simp only [pow_zero]
      omega
  · intro t l2 r2 val ht
    constructor
    · unfold SegmentTree.update
      rw [ht]
      unfold SegmentTree.updateGo
      rw [if_pos (Or.inr (Nat.zero_le l2))]
    · unfold SegmentTree.query
      rw [ht]
      unfold SegmentTree.queryGo
      rw [if_pos (Or.inr (Nat.zero_le l2))]

/-- Witness for `claim9_thm`: on `n = 2`, `update(0, 1)` touches index `2`
(the right child read by the recombination), which is below `4 · 2 = 8`; and
on a zero-segment tree a sample `update`/`query` is a no-op. -/
theorem claim9_witness :
    2 ∈ SegmentTree.touched 2 0 1 ∧ 2 < 4 * 2 ∧
    (SegmentTree.make 0).update 1 2 5 = SegmentTree.make 0 ∧
    (SegmentTree.make 0).query 1 2 = (SegmentTree.make 0, 0) :=
  ⟨by decide, (claim9_thm 2 0 1 (by decide) (by decide)).1 2 (by decide),
   ((claim9_thm 2 0 1 (by decide) (by decide)).2 (SegmentTree.make 0) 1 2 5 rfl).1,
   ((claim9_thm 2 0 1 (by decide) (by decide)).2 (SegmentTree.make 0) 1 2 5 rfl).2⟩
